import Mathlib

/-!
Shallow embedding of the scan-orchestration and finding-correlation core of
the tameshi-vscode extension, together with proofs about it.

Sources embedded here:
  * `src/types/findings.ts` (data model and the helpers `findingsOverlap`,
    `findingsAreSimilarType`, `getScannerType`),
  * `src/services/findingCorrelationService.ts` (`calculateCorrelationScore`,
    `correlateFindings`, `mergeDuplicates` and their private helpers),
  * `src/scanning/changeTracker.ts` (`onDocumentChanged`, `applyLineShift`),
  * the `FindingsProvider` epoch gate (`loadFindingsWithEpoch`, `loadFindings`)
    and the LSP client's `handleFindingsUpdated` dispatch,
  * the `ScanScheduler` save/debounce path (`handleSave`,
    `scheduleScanWithEpoch`) and the smart-AI-rescan decision
    (`handleSmartAIRescan` with its helpers).

Modelling conventions: JavaScript numbers that are always integers become
`Nat`/`Int`; the floating-point correlation scores become `ℚ` (all constants
and thresholds involved are decimal fractions, and every comparison performed
by the code is exact at these magnitudes); JS `Map`s become insertion-ordered
association lists; object mutation becomes explicit state passing, with the
finding array of a correlation pass represented as a `List` updated by index;
`undefined`-able fields become `Option`; the md5 hash of the scheduler and the
sha256 hash of the change tracker become two constructors of an injective
`ContentHash` type (modelling "collision-resistant, used only for equality").
-/

namespace Tameshi

/-- Severity levels of a finding, as in `ExtendedFinding['severity']`. -/
inductive Severity
  | critical
  | high
  | medium
  | low
  | info
  | informational
deriving DecidableEq, Repr, Inhabited

/-- Confidence levels of a finding. -/
inductive Confidence
  | high
  | medium
  | low
deriving DecidableEq, Repr, Inhabited

/-- Scanner classification, as in `ScannerType` of `findings.ts`. -/
inductive ScannerType
  | deterministic
  | llm
  | hybrid
  | ir
  | source
deriving DecidableEq, Repr, Inhabited

/-- Correlation kinds, as in `CorrelationType` of `findings.ts`. -/
inductive CorrelationType
  | augmentation
  | duplicate
  | related
  | refinement
  | conflict
deriving DecidableEq, Repr, Inhabited

/-- Scanner agreement levels: `'full' | 'partial' | 'conflict'`. The middle
level is called `partialMatch` here because `partial` is reserved in Lean. -/
inductive Agreement
  | full
  | partialMatch
  | conflict
deriving DecidableEq, Repr, Inhabited

/-- Location of a finding (1-based lines; `endLine`/`endColumn` optional). -/
structure Location where
  file : String
  line : Nat
  column : Nat
  endLine : Option Nat := none
  endColumn : Option Nat := none
deriving DecidableEq, Repr, Inhabited

/-- LLM enrichment data (`AugmentedData` of `findings.ts`), restricted to the
fields the embedded code reads or writes. -/
structure AugmentedData where
  contextualAnalysis : Option String := none
  impactAssessment : Option String := none
  remediationGuidance : Option (List String) := none
  codeExamples : Option (List String) := none
  riskScore : Option ℚ := none
deriving DecidableEq, Repr, Inhabited

/-- Correlation metadata attached to a finding (`CorrelationMetadata`). -/
structure CorrelationMetadata where
  parentFindingId : Option String := none
  relatedFindingIds : Option (List String) := none
  correlationType : Option CorrelationType := none
  confidenceBoost : Option ℚ := none
  correlationScore : Option ℚ := none
  scannerAgreement : Option Agreement := none
deriving DecidableEq, Repr, Inhabited

/-- The `metadata : Record<string, unknown>` bag of a finding, restricted to
the keys the embedded code reads or writes. The `llm_model`/`ai_model` flags
record truthiness of those keys. -/
structure Metadata where
  related_to : Option String := none
  augmented_data : Option AugmentedData := none
  merged_from : Option (List String) := none
  scanner_ids : Option (List String) := none
  llm_model : Bool := false
  ai_model : Bool := false
deriving DecidableEq, Repr, Inhabited

/-- The `ExtendedFinding` record of `findings.ts` (fields the core uses). -/
structure ExtendedFinding where
  id : String
  rule : String
  severity : Severity
  confidence : Confidence
  title : String
  description : String
  location : Location
  scannerType : Option ScannerType := none
  correlationMetadata : Option CorrelationMetadata := none
  augmentedData : Option AugmentedData := none
  scannerId : Option String := none
  findingType : Option String := none
  metadata : Option Metadata := none
deriving DecidableEq, Repr, Inhabited

/-- Truthiness of an optional string in JS: present and non-empty. -/
def truthyString : Option String → Bool
  | none => false
  | some s => s ≠ ""

/-- The effective end line `location.endLine || location.line`: the JS `||`
falls through both on `undefined` and on the falsy value `0`. -/
def effEndLine (l : Location) : Nat :=
  match l.endLine with
  | some e => if e = 0 then l.line else e
  | none => l.line

/-- The helper `findingsOverlap` of `findings.ts`: same file and intersecting
effective line ranges. -/
def findingsOverlap (f1 f2 : ExtendedFinding) : Bool :=
  if f1.location.file ≠ f2.location.file then false
  else
    let f1Start := f1.location.line
    let f1End := effEndLine f1.location
    let f2Start := f2.location.line
    let f2End := effEndLine f2.location
    !(f1End < f2Start || f2End < f1Start)

/-! JS string primitives are modelled on the character list of the string
(`String.toList`); for these pure ASCII operations the semantics coincide
with the JS code-unit view. -/

/-- JS `String.prototype.startsWith`. -/
def strStartsWith (s p : String) : Bool :=
  p.toList.isPrefixOf s.toList

/-- JS `String.prototype.endsWith`. -/
def strEndsWith (s p : String) : Bool :=
  p.toList.isSuffixOf s.toList

/-- JS `String.prototype.toLowerCase`, as a character list. -/
def lowerL (s : String) : List Char :=
  s.toList.map Char.toLower

/-- Stripping of the scanner-family prefixes, the regex
`replace(/^(source_|hybrid_|cranelift_)/, '')` (one leading occurrence of one
alternative). -/
def stripFamilyTag (r : String) : String :=
  if strStartsWith r "source_" then r.drop 7
  else if strStartsWith r "hybrid_" then r.drop 7
  else if strStartsWith r "cranelift_" then r.drop 10
  else r

/-- The helper `findingsAreSimilarType` of `findings.ts`. Both `findingType`
guards are truthiness tests, so an empty-string `findingType` falls through to
the rule comparison. -/
def findingsAreSimilarType (f1 f2 : ExtendedFinding) : Bool :=
  if truthyString f1.findingType ∧ truthyString f2.findingType ∧
      f1.findingType = f2.findingType then true
  else
    let rule1Base := stripFamilyTag f1.rule
    let rule2Base := stripFamilyTag f2.rule
    if rule1Base = rule2Base ∧ 0 < rule1Base.length then true
    else false

/-- Substring test on a character list, modelling JS
`String.prototype.includes`. -/
def strContains (s : List Char) (sub : String) : Bool :=
  s.tails.any (fun t => sub.toList.isPrefixOf t)

/-- The hard-coded list of LLM scanner ids in `getScannerType`. -/
def llmScannerIds : List String :=
  ["openai", "anthropic", "claude", "gpt", "gemini", "llama", "ai_scanner", "llm_scanner"]

/-- The helper `getScannerType` of `findings.ts`. The `metadata` argument
defaults to `none`, matching the one-argument call sites of the correlation
service and scheduler. -/
def getScannerType (scannerId : String) (metadata : Option Metadata := none) : ScannerType :=
  let lowerCaseId := lowerL scannerId
  if (match metadata with | some m => m.llm_model || m.ai_model | none => false) then .llm
  else if strStartsWith scannerId "hybrid_" then .hybrid
  else if llmScannerIds.any (fun x => x.toList = lowerCaseId) then .llm
  else if strContains lowerCaseId "llm" || strContains lowerCaseId "ai_" ||
      strContains lowerCaseId "ai-" then .llm
  else if strStartsWith scannerId "source_" then .source
  else if strStartsWith scannerId "cranelift_" || lowerCaseId = "ir".toList ||
      "_ir".toList.isSuffixOf lowerCaseId then .ir
  else .deterministic

/-! Correlation service (`findingCorrelationService.ts`). None of the methods
embedded below reads the service configuration: the link threshold `0.7`, the
duplicate threshold `0.8` and all score weights are hard-coded in the source. -/

/-- Lookup of `f.metadata?.related_to`. -/
def metadataRelatedTo (f : ExtendedFinding) : Option String :=
  f.metadata.bind (·.related_to)

/-- The private `calculateLocationOverlap`: overlap fraction of the two
effective line ranges, `0` on distinct files or disjoint ranges. -/
def calculateLocationOverlap (f1 f2 : ExtendedFinding) : ℚ :=
  if f1.location.file ≠ f2.location.file then 0
  else
    let f1Start := f1.location.line
    let f1End := effEndLine f1.location
    let f2Start := f2.location.line
    let f2End := effEndLine f2.location
    let overlapStart := max f1Start f2Start
    let overlapEnd := min f1End f2End
    if overlapEnd < overlapStart then 0
    else
      let overlapLines : ℚ := (overlapEnd : ℚ) - (overlapStart : ℚ) + 1
      let f1Lines : ℚ := (f1End : ℚ) - (f1Start : ℚ) + 1
      let f2Lines : ℚ := (f2End : ℚ) - (f2Start : ℚ) + 1
      overlapLines / max f1Lines f2Lines

/-- The public `calculateCorrelationScore`: weighted sum of location overlap
(`0.4`), type similarity (`0.4`), equal severity (`0.1`) and an explicit
`related_to` back-reference (`0.1`), capped at `1.0`. -/
def calculateCorrelationScore (f1 f2 : ExtendedFinding) : ℚ :=
  let s1 : ℚ := if findingsOverlap f1 f2 then 4/10 * calculateLocationOverlap f1 f2 else 0
  let s2 : ℚ := if findingsAreSimilarType f1 f2 then 4/10 else 0
  let s3 : ℚ := if f1.severity = f2.severity then 1/10 else 0
  let s4 : ℚ := if metadataRelatedTo f1 = some f2.id ∨ metadataRelatedTo f2 = some f1.id
    then 1/10 else 0
  min (s1 + s2 + s3 + s4) 1

/-- Severity index over `['low','medium','high','critical']` as used by
`inferCorrelationType` (`indexOf` yields `-1` for `info`/`informational`). -/
def sevIdx4 : Severity → Int
  | .low => 0
  | .medium => 1
  | .high => 2
  | .critical => 3
  | .info => -1
  | .informational => -1

/-- Severity index over `['info','low','medium','high','critical']` as used by
`mergeFindingGroup` and `shouldUpgradeSeverity` (`informational` yields `-1`). -/
def sevIdx5 : Severity → Int
  | .info => 0
  | .low => 1
  | .medium => 2
  | .high => 3
  | .critical => 4
  | .informational => -1

/-- The private `inferCorrelationType` for a linked pair (`f1` is self). -/
def inferCorrelationType (f1 f2 : ExtendedFinding) (score : ℚ) : CorrelationType :=
  let type1 := getScannerType (f1.scannerId.getD "")
  let type2 := getScannerType (f2.scannerId.getD "")
  if (type1 = .llm ∧ type2 = .deterministic) ∨ (type1 = .deterministic ∧ type2 = .llm)
    then .augmentation
  else if score > 17/20 ∧ type1 = type2 then .duplicate
  else if 1 < (sevIdx4 f1.severity - sevIdx4 f2.severity).natAbs then .conflict
  else .related

/-- The private `determineScannerAgreement`. -/
def determineScannerAgreement (f1 f2 : ExtendedFinding) : Agreement :=
  let severityMatch := f1.severity = f2.severity
  let typeMatch := findingsAreSimilarType f1 f2
  if severityMatch ∧ typeMatch then .full
  else if severityMatch ∨ typeMatch then .partialMatch
  else .conflict

/-- One half of the in-place `linkFindings` mutation: attach `other`'s id (if
absent) and fill the still-unset metadata fields of `f`. The source computes
`inferCorrelationType`/`determineScannerAgreement` on the partially mutated
objects, but those helpers read only fields that linking never touches, so
passing the pre-link records is equivalent. -/
def linkOne (f other : ExtendedFinding) (score : ℚ) : ExtendedFinding :=
  let cm := f.correlationMetadata.getD {}
  let rel := cm.relatedFindingIds.getD []
  let rel := if other.id ∈ rel then rel else rel ++ [other.id]
  let cm := { cm with relatedFindingIds := some rel }
  let cm := if cm.correlationScore = none then { cm with correlationScore := some score } else cm
  let cm := if cm.correlationType = none
    then { cm with correlationType := some (inferCorrelationType f other score) } else cm
  let cm := if cm.scannerAgreement = none
    then { cm with scannerAgreement := some (determineScannerAgreement f other) } else cm
  { f with correlationMetadata := some cm }

/-- The private `linkFindings`, acting on the finding array at indices `i` and
`j` (the source mutates the two shared objects; here the array is rebuilt). -/
def linkFindings (s : List ExtendedFinding) (i j : Nat) (score : ℚ) : List ExtendedFinding :=
  match s[i]?, s[j]? with
  | some fi, some fj => (s.set i (linkOne fi fj score)).set j (linkOne fj fi score)
  | _, _ => s

/-- Spatial bucket key of `groupByLocation`: the JS string key
```${file}:${Math.floor(line / 10)}`` is in bijection with this pair, since
the bucket component never contains a colon. -/
def groupKey (f : ExtendedFinding) : String × Nat :=
  (f.location.file, f.location.line / 10)

/-- Bucket keys in first-occurrence order (JS `Map` preserves insertion
order). -/
def keysInOrder (findings : List ExtendedFinding) : List (String × Nat) :=
  findings.foldl (fun acc f => if groupKey f ∈ acc then acc else acc ++ [groupKey f]) []

/-- Indices of the findings in the bucket of key `k`, in input order. The
source groups shared object references; the index-based view lets the linking
mutations act on one array. -/
def groupIndices (findings : List ExtendedFinding) (k : String × Nat) : List Nat :=
  (findings.enum.filter (fun p => groupKey p.2 = k)).map (·.1)

/-- Index pairs `(i, j)` visited by the nested `i < j` loops of
`correlateFindingGroup`, in loop order. -/
def groupPairs : List Nat → List (Nat × Nat)
  | [] => []
  | i :: rest => rest.map (fun j => (i, j)) ++ groupPairs rest

/-- All pairs visited by `correlateFindings`: buckets in insertion order, the
nested pair loop within each bucket. -/
def allPairs (findings : List ExtendedFinding) : List (Nat × Nat) :=
  (keysInOrder findings).flatMap (fun k => groupPairs (groupIndices findings k))

/-- The body of the pair loop of `correlateFindingGroup`: link the pair when
it is a deterministic/AI cross pair whose score exceeds `0.7`. -/
def correlateStep (s : List ExtendedFinding) (p : Nat × Nat) : List ExtendedFinding :=
  match s[p.1]?, s[p.2]? with
  | some fi, some fj =>
    let type1 := getScannerType (fi.scannerId.getD "")
    let type2 := getScannerType (fj.scannerId.getD "")
    let isDeterministic1 := type1 = .deterministic ∨ type1 = .source ∨ type1 = .ir
    let isDeterministic2 := type2 = .deterministic ∨ type2 = .source ∨ type2 = .ir
    let isAI1 := type1 = .llm ∨ type1 = .hybrid
    let isAI2 := type2 = .llm ∨ type2 = .hybrid
    let isDeterministicToAI := (isDeterministic1 ∧ isAI2) ∨ (isAI1 ∧ isDeterministic2)
    if ¬ isDeterministicToAI then s
    else
      let score := calculateCorrelationScore fi fj
      if score > 7/10 then linkFindings s p.1 p.2 score else s
  | _, _ => s

/-- The public `correlateFindings`: bucket the findings, then run the pair
loop of every bucket over the shared array. The returned array is the shallow
copy `[...findings]` whose elements were mutated in place. -/
def correlateFindings (findings : List ExtendedFinding) : List ExtendedFinding :=
  (allPairs findings).foldl correlateStep findings

/-- The private `areDuplicates`: same file and line, similar type, and a
correlation score of at least `0.8`. -/
def areDuplicates (f1 f2 : ExtendedFinding) : Bool :=
  if f1.location.file ≠ f2.location.file ∨ f1.location.line ≠ f2.location.line then false
  else if ¬ findingsAreSimilarType f1 f2 then false
  else if calculateCorrelationScore f1 f2 ≥ 8/10 then true
  else false

/-- Stable insertion into a severity-descending list: an element goes in front
of the first entry whose `sevIdx5` does not exceed its own. -/
def insertBySevDesc (f : ExtendedFinding) : List ExtendedFinding → List ExtendedFinding
  | [] => [f]
  | g :: gs =>
    if sevIdx5 g.severity ≤ sevIdx5 f.severity then f :: g :: gs
    else g :: insertBySevDesc f gs

/-- The `[...findings].sort(...)` of `mergeFindingGroup`: a stable sort by
descending `sevIdx5` (JS `Array.prototype.sort` is stable). -/
def sortBySevDesc : List ExtendedFinding → List ExtendedFinding
  | [] => []
  | f :: fs => insertBySevDesc f (sortBySevDesc fs)

/-- The `f.scannerId || f.rule` fallback of `mergeFindingGroup` (the JS `||`
falls through on `undefined` and on the empty string). -/
def scannerIdOrRule (f : ExtendedFinding) : String :=
  match f.scannerId with
  | some s => if s = "" then f.rule else s
  | none => f.rule

/-- The `f.augmentedData || f.metadata?.augmented_data` fallback. -/
def augmentedDataOf (f : ExtendedFinding) : Option AugmentedData :=
  match f.augmentedData with
  | some a => some a
  | none => f.metadata.bind (·.augmented_data)

/-- One step of the private `mergeAugmentedData` loop: later truthy fields
override, except `riskScore`, which takes the maximum. An empty string is
falsy and does not override; a present list (even empty) does. -/
def mergeAugmentedDataStep (merged : AugmentedData) (data : Option AugmentedData) :
    AugmentedData :=
  match data with
  | none => merged
  | some d =>
    let merged := if truthyString d.contextualAnalysis
      then { merged with contextualAnalysis := d.contextualAnalysis } else merged
    let merged := if truthyString d.impactAssessment
      then { merged with impactAssessment := d.impactAssessment } else merged
    let merged := if d.remediationGuidance ≠ none
      then { merged with remediationGuidance := d.remediationGuidance } else merged
    let merged := if d.codeExamples ≠ none
      then { merged with codeExamples := d.codeExamples } else merged
    match d.riskScore with
    | some r => { merged with riskScore := some (max (merged.riskScore.getD 0) r) }
    | none => merged

/-- The private `mergeAugmentedData`. -/
def mergeAugmentedData (dataArray : List (Option AugmentedData)) : AugmentedData :=
  dataArray.foldl mergeAugmentedDataStep {}

/-- The private `mergeDescriptions`: pipe-joined member descriptions. -/
def mergeDescriptions (findings : List ExtendedFinding) : String :=
  String.intercalate " | " (findings.map (·.description))

/-- The private `mergeFindingGroup`: representative record of a duplicate
group (always called on a non-empty list; `headD` covers the impossible empty
case). -/
def mergeFindingGroup (findings : List ExtendedFinding) : ExtendedFinding :=
  let sorted := sortBySevDesc findings
  let base := sorted.headD default
  let others := sorted.tail
  let scannerIds := (findings.map scannerIdOrRule).filter (fun s => s ≠ "")
  let allAugmentedData :=
    (findings.filter (fun f => augmentedDataOf f ≠ none)).map augmentedDataOf
  { base with
    title := base.title ++ " (Confirmed by " ++ toString findings.length ++ " scanners)",
    description := mergeDescriptions findings,
    correlationMetadata := some
      { relatedFindingIds := some (others.map (·.id)),
        correlationType := some .duplicate,
        scannerAgreement := some .full,
        confidenceBoost := some (3/10 * ((findings.length : ℚ) - 1)) },
    augmentedData := if 0 < allAugmentedData.length
      then some (mergeAugmentedData allAugmentedData) else none,
    metadata := some
      { base.metadata.getD {} with
        merged_from := some (findings.map (·.id)),
        scanner_ids := some scannerIds } }

/-- The loop of `mergeDuplicates`: walk the input once, collecting for each
unprocessed finding its not-yet-processed duplicates from the whole input.
Findings without duplicates pass through and are not marked processed, exactly
as in the source. -/
def mergeDuplicatesGo (all : List ExtendedFinding) :
    List ExtendedFinding → List String → List ExtendedFinding
  | [], _ => []
  | f :: rest, processed =>
    if f.id ∈ processed then mergeDuplicatesGo all rest processed
    else
      let duplicates := all.filter
        (fun g => g.id ≠ f.id ∧ g.id ∉ processed ∧ areDuplicates f g = true)
      if duplicates.isEmpty then f :: mergeDuplicatesGo all rest processed
      else
        mergeFindingGroup (f :: duplicates) ::
          mergeDuplicatesGo all rest (processed ++ f.id :: duplicates.map (·.id))

/-- The public `mergeDuplicates`. -/
def mergeDuplicates (findings : List ExtendedFinding) : List ExtendedFinding :=
  mergeDuplicatesGo findings findings []

/-! Association-list model of the per-file JS `Map`s: insertion order is
preserved, `set` on an existing key updates in place. -/

/-- Lookup in an association list (JS `Map.prototype.get`). -/
def assocGet? {κ α : Type} [DecidableEq κ] (m : List (κ × α)) (k : κ) : Option α :=
  (m.find? (fun p => p.1 = k)).map (·.2)

/-- Update-or-append in an association list (JS `Map.prototype.set`). -/
def assocSet {κ α : Type} [DecidableEq κ] (m : List (κ × α)) (k : κ) (v : α) :
    List (κ × α) :=
  if m.any (fun p => p.1 = k) then m.map (fun p => if p.1 = k then (k, v) else p)
  else m ++ [(k, v)]

/-! Change tracker (`changeTracker.ts`). -/

/-- One entry of `event.contentChanges`: 0-based start/end lines of the
replaced range and the replacement text. -/
structure ContentChange where
  startLine : Nat
  endLine : Nat
  text : String
deriving DecidableEq, Repr, Inhabited

/-- A `TextDocumentChangeEvent` as the tracker consumes it. -/
structure DocChangeEvent where
  languageId : String
  path : String
  version : Nat
  contentChanges : List ContentChange
deriving DecidableEq, Repr, Inhabited

/-- Number of newline characters, the JS `text.split('\n').length - 1`. -/
def countNewlines (s : String) : Nat :=
  s.toList.countP (· = '\n')

/-- Adding a line number to the modified-line set (JS `Set.prototype.add`,
modelled as an insertion-ordered duplicate-free list). -/
def addLine (s : List Nat) (n : Nat) : List Nat :=
  if n ∈ s then s else s ++ [n]

/-- The per-change body of the `onDocumentChanged` loop, acting on the file's
modified-line set and shift map. -/
def applyChange (st : List Nat × List (Nat × Int)) (c : ContentChange) :
    List Nat × List (Nat × Int) :=
  let (modifiedLines, lineDeltas) := st
  let deletedLines := c.endLine - c.startLine
  let addedLines := countNewlines c.text
  let modifiedLines :=
    (List.range' c.startLine (c.endLine - c.startLine + 1)).foldl
      (fun s l => addLine s (l + 1)) modifiedLines
  let delta : Int := (addedLines : Int) - (deletedLines : Int)
  if delta ≠ 0 then
    let shiftStartLine := c.endLine + 1
    (modifiedLines,
      assocSet lineDeltas shiftStartLine ((assocGet? lineDeltas shiftStartLine).getD 0 + delta))
  else (modifiedLines, lineDeltas)

/-- The `ChangeTracker` state (the fields the embedded methods touch). -/
structure ChangeTrackerState where
  modifiedLines : List (String × List Nat) := []
  documentVersions : List (String × Nat) := []
  lineDeltas : List (String × List (Nat × Int)) := []
deriving DecidableEq, Repr, Inhabited

/-- The private `onDocumentChanged` of `ChangeTracker`: records the 1-based
lines spanned by each edit, accumulates non-zero line deltas at
`endLine + 1`, and stores the document version. Non-Solidity documents are
ignored. -/
def onDocumentChanged (st : ChangeTrackerState) (e : DocChangeEvent) : ChangeTrackerState :=
  if e.languageId ≠ "solidity" then st
  else
    let modified0 := (assocGet? st.modifiedLines e.path).getD []
    let deltas0 := (assocGet? st.lineDeltas e.path).getD []
    let res := e.contentChanges.foldl applyChange (modified0, deltas0)
    { st with
      modifiedLines := assocSet st.modifiedLines e.path res.1,
      lineDeltas := assocSet st.lineDeltas e.path res.2,
      documentVersions := assocSet st.documentVersions e.path e.version }

/-- The public `applyLineShift`: accumulate the deltas of all shift-map
entries whose key is at most `originalLine`; absent or empty maps leave the
line unchanged. -/
def applyLineShift (st : ChangeTrackerState) (filePath : String) (originalLine : Nat) : Int :=
  match assocGet? st.lineDeltas filePath with
  | none => originalLine
  | some deltas =>
    if deltas.isEmpty then originalLine
    else deltas.foldl
      (fun adjustedLine p => if p.1 ≤ originalLine then adjustedLine + p.2 else adjustedLine)
      (originalLine : Int)

/-- The public `getModifiedLines`. -/
def getModifiedLines (st : ChangeTrackerState) (filePath : String) : List Nat :=
  (assocGet? st.modifiedLines filePath).getD []

/-! Content hashes. The scheduler hashes with md5 (`hashContent`), the change
tracker with sha256 (`getContentHash`); both are used only for equality, so
they are modelled as injective constructors over the document text. The two
algorithms never produce equal digests, which the two constructors capture. -/

/-- A content digest tagged with the algorithm that produced it. -/
inductive ContentHash
  | md5 (content : String)
  | sha256 (content : String)
deriving DecidableEq, Repr, Inhabited

/-! Findings provider (`findingsView.ts`): the epoch gate of
`loadFindingsWithEpoch`, with `loadFindings()` delegating at epoch `0`. -/

/-- Provider state relevant to findings loading. `lastAppliedScanEpoch` is
initialised to `0` in the source. -/
structure ProviderState where
  lastAppliedScanEpoch : Int := 0
  rawFindings : List ExtendedFinding := []
  mergedFindings : List ExtendedFinding := []
  findings : List ExtendedFinding := []
  mergeMode : Bool := false
deriving DecidableEq, Repr, Inhabited

/-- Outcome of the `tameshi/getFindings` round trip as the provider observes
it: no LSP client, a response with findings (already mapped to
`ExtendedFinding`), a response without findings, or a thrown error. -/
inductive ServerResponse
  | noClient
  | withFindings (fs : List ExtendedFinding)
  | withoutFindings
  | error
deriving DecidableEq, Repr, Inhabited

/-- Whether a response reaches one of the two branches that commit
`lastAppliedScanEpoch`. -/
def ServerResponse.applies : ServerResponse → Bool
  | .withFindings _ => true
  | .withoutFindings => true
  | _ => false

/-- The `async loadFindingsWithEpoch(scanEpoch)` of `FindingsProvider`. The
returned flag records whether the epoch gate was passed (a reload was
attempted); when the gate rejects, the call returns before any request is
made and the state is untouched. On a successful response the findings are
correlated, merged and committed together with the epoch; a missing client or
a thrown error clears the displayed findings without committing the epoch. -/
def loadFindingsWithEpoch (s : ProviderState) (scanEpoch : Int) (server : ServerResponse) :
    ProviderState × Bool :=
  if scanEpoch ≤ s.lastAppliedScanEpoch then (s, false)
  else
    match server with
    | .noClient => ({ s with findings := [] }, true)
    | .withFindings fs =>
      let rawFindings := correlateFindings fs
      let mergedFindings := mergeDuplicates rawFindings
      let shown := if s.mergeMode then mergedFindings else rawFindings
      ({ s with
          rawFindings := rawFindings,
          mergedFindings := mergedFindings,
          findings := shown,
          lastAppliedScanEpoch := scanEpoch }, true)
    | .withoutFindings =>
      ({ s with
          rawFindings := [],
          mergedFindings := [],
          findings := [],
          lastAppliedScanEpoch := scanEpoch }, true)
    | .error => ({ s with findings := [] }, true)

/-- The `async loadFindings()` of `FindingsProvider`: delegates to
`loadFindingsWithEpoch(0)`. -/
def loadFindings (s : ProviderState) (server : ServerResponse) : ProviderState × Bool :=
  loadFindingsWithEpoch s 0 server

/-- The provider-facing slice of the LSP client's `handleFindingsUpdated`:
with a `scanEpoch` the reload is gated on that epoch; without one a warning is
logged and `loadFindings()` is called. -/
def handleFindingsUpdated (s : ProviderState) (scanEpoch : Option Int)
    (server : ServerResponse) : ProviderState × Bool :=
  match scanEpoch with
  | some e => loadFindingsWithEpoch s e server
  | none => loadFindings s server

/-- Trace runner: process a list of `findingsUpdated` epochs with their server
outcomes. -/
def runNotifications (s : ProviderState) : List (Int × ServerResponse) → ProviderState
  | [] => s
  | (e, srv) :: rest => runNotifications (loadFindingsWithEpoch s e srv).1 rest

/-- The epochs actually applied (committed to `lastAppliedScanEpoch`) along a
trace, in order. -/
def appliedEpochs (s : ProviderState) : List (Int × ServerResponse) → List Int
  | [] => []
  | (e, srv) :: rest =>
    let s' := (loadFindingsWithEpoch s e srv).1
    if s.lastAppliedScanEpoch < e ∧ srv.applies = true then e :: appliedEpochs s' rest
    else appliedEpochs s' rest

/-! Scan scheduler (`scanScheduler.ts`): the on-save debounce path and the
smart-AI-rescan decision. Timers are single-slot per file; the pending timer
payload is the `(hash, epoch)` pair captured by the `setTimeout` closure. -/

/-- Removal from an association list (JS `Map.prototype.delete`). -/
def assocDelete {κ α : Type} [DecidableEq κ] (m : List (κ × α)) (k : κ) : List (κ × α) :=
  m.filter (fun p => p.1 ≠ k)

/-- The private `hashContent` (md5 over the document text). -/
def hashContent (content : String) : ContentHash :=
  .md5 content

/-- The private `isSolidityOrYul`. -/
def isSolidityOrYul (languageId fileName : String) : Bool :=
  languageId = "solidity" ∨ languageId = "yul" ∨
    strEndsWith fileName ".sol" ∨ strEndsWith fileName ".yul"

/-- The private `filterAIFindings`: LLM/hybrid findings of one file. The
`scannerId ? getScannerType(scannerId) : 'deterministic'` fallback treats an
empty scanner id as falsy. -/
def filterAIFindings (findings : List ExtendedFinding) (filePath : String) :
    List ExtendedFinding :=
  findings.filter (fun f =>
    let scannerType := match f.scannerType with
      | some t => t
      | none => match f.scannerId with
        | some sid => if sid = "" then .deterministic else getScannerType sid
        | none => .deterministic
    (scannerType = .llm ∨ scannerType = .hybrid) ∧ f.location.file = filePath)

/-- A saved document as `handleSave` reads it. -/
structure SavedDocument where
  path : String
  languageId : String
  fileName : String
  content : String
  version : Nat
deriving DecidableEq, Repr, Inhabited

/-- The `onSaveMode` configuration value (`'off' | 'smart' | 'ai'` or any
other string, which falls through to the deterministic path). -/
inductive OnSaveModeCfg
  | off
  | smart
  | ai
  | other
deriving DecidableEq, Repr, Inhabited

/-- The slice of the configuration `handleSave` reads. -/
structure SchedulerConfig where
  onSaveNone : Bool := false
  onSaveMode : OnSaveModeCfg := .smart
  smartRescan : String := "off"
  onSaveWorkspace : Bool := false
deriving DecidableEq, Repr, Inhabited

/-- Scheduler state for the deterministic on-save path, together with
observation logs of the outgoing requests and of the delegations to the
smart-AI-rescan handler. -/
structure SchedulerState where
  lastScannedHash : List (String × ContentHash) := []
  pendingScans : List (String × ContentHash × Nat) := []
  epochByFile : List (String × Nat) := []
  saveTimers : List (String × ContentHash × Nat) := []
  lastAIScanHash : List (String × ContentHash) := []
  requests : List (String × ContentHash × Nat) := []
  aiScanRequests : List String := []
  smartRescanCalls : List String := []
deriving DecidableEq, Repr, Inhabited

/-- The private `handleSave`. In `smart` mode with smart rescan enabled and
existing AI findings the save is delegated entirely to the smart-AI-rescan
handler (modelled as an entry in the `smartRescanCalls` log, the decision
itself being `handleSmartAIRescan` below); in `ai` mode only an AI file scan
is requested. Otherwise the deterministic path runs: an unchanged
last-scanned hash is a no-op, and a changed one allocates the next epoch,
records the pending scan and (re)starts the single debounce timer for the
file. -/
def handleSave (cfg : SchedulerConfig) (allFindings : List ExtendedFinding)
    (st : SchedulerState) (doc : SavedDocument) : SchedulerState :=
  if cfg.onSaveNone then st
  else if ¬ isSolidityOrYul doc.languageId doc.fileName then st
  else
    let filePath := doc.path
    let hash := hashContent doc.content
    if cfg.onSaveMode = .off then st
    else if cfg.onSaveMode = .smart ∧ cfg.smartRescan ≠ "off" ∧
        ¬ (filterAIFindings allFindings filePath).isEmpty then
      if assocGet? st.lastAIScanHash filePath = some hash then st
      else { st with smartRescanCalls := st.smartRescanCalls ++ [filePath] }
    else if cfg.onSaveMode = .ai then
      { st with aiScanRequests := st.aiScanRequests ++ [filePath] }
    else
      if assocGet? st.lastScannedHash filePath = some hash then st
      else
        let epoch := (assocGet? st.epochByFile filePath).getD 0 + 1
        { st with
          epochByFile := assocSet st.epochByFile filePath epoch,
          pendingScans := assocSet st.pendingScans filePath (hash, epoch),
          saveTimers := assocSet st.saveTimers filePath (hash, epoch) }

/-- The private `scheduleScanWithEpoch`, run when the debounce timer fires.
`currentDoc` is the text of the open document, if any, at firing time: a hash
mismatch abandons the attempt and drops the pending scan; otherwise the scan
request goes out (its success path; a thrown request error would clear the
pending entry, which no claim exercises). -/
def scheduleScanWithEpoch (lspAvailable : Bool) (st : SchedulerState) (filePath : String)
    (hash : ContentHash) (epoch : Nat) (currentDoc : Option String) : SchedulerState :=
  if ¬ lspAvailable then st
  else
    match currentDoc with
    | some content =>
      if hashContent content ≠ hash then
        { st with pendingScans := assocDelete st.pendingScans filePath }
      else { st with requests := st.requests ++ [(filePath, hash, epoch)] }
    | none => { st with requests := st.requests ++ [(filePath, hash, epoch)] }

/-- Firing of the per-file debounce timer: the callback removes its timer slot
and calls `scheduleScanWithEpoch` with the captured hash and epoch. -/
def fireSaveTimer (lspAvailable : Bool) (st : SchedulerState) (filePath : String)
    (currentDoc : Option String) : SchedulerState :=
  match assocGet? st.saveTimers filePath with
  | none => st
  | some (hash, epoch) =>
    scheduleScanWithEpoch lspAvailable
      { st with saveTimers := assocDelete st.saveTimers filePath } filePath hash epoch currentDoc

/-- The private `checkFindingsAffected`: findings whose effective line range,
widened by `contextLines`, meets the modified-line set. The source iterates
the widened window testing set membership; testing each modified line against
the window is the same predicate. -/
def checkFindingsAffected (findings : List ExtendedFinding) (modifiedLines : List Nat)
    (contextLines : Nat) : List ExtendedFinding :=
  findings.filter (fun f =>
    let startLine := f.location.line
    let endLine := f.location.endLine.getD startLine
    modifiedLines.any (fun l =>
      decide ((startLine : Int) - (contextLines : Int) ≤ (l : Int)) &&
        decide ((l : Int) ≤ (endLine : Int) + (contextLines : Int))))

/-- String form of a severity, as it appears in the finding objects. -/
def sevString : Severity → String
  | .critical => "critical"
  | .high => "high"
  | .medium => "medium"
  | .low => "low"
  | .info => "info"
  | .informational => "informational"

/-- JS `['info','low','medium','high','critical'].indexOf(s)`. -/
def sevOrderIndexOf (s : String) : Int :=
  if s = "info" then 0
  else if s = "low" then 1
  else if s = "medium" then 2
  else if s = "high" then 3
  else if s = "critical" then 4
  else -1

/-- The private `filterBySeverity`: an unknown threshold string keeps
everything; otherwise findings at or above the threshold index survive
(`informational` maps to `-1` and never survives a known threshold). -/
def filterBySeverity (findings : List ExtendedFinding) (minSeverity : String) :
    List ExtendedFinding :=
  let minIndex := sevOrderIndexOf minSeverity
  if minIndex = -1 then findings
  else findings.filter (fun f => minIndex ≤ sevOrderIndexOf (sevString f.severity))

/-- Configuration slice read by `handleSmartAIRescan`. -/
structure SmartRescanConfig where
  smartRescan : String := "off"
  smartRescanContextLines : Nat := 2
  smartRescanMinSeverity : String := "info"
deriving DecidableEq, Repr, Inhabited

/-- Per-file AI-scan bookkeeping (`lastAIScanHash` / `lastAIScanTimestamp` /
`lastAIScanVersion`), as recorded by a completed AI scan. -/
structure AIScanBookkeeping where
  lastAIScanHash : Option ContentHash := none
  lastAIScanTimestamp : Option Nat := none
  lastAIScanVersion : Option Nat := none
deriving DecidableEq, Repr, Inhabited

/-- The document facts `handleSmartAIRescan` reads: path, version and the
change tracker's sha256 content hash. -/
structure SmartRescanDocument where
  path : String
  version : Nat
  contentHash : ContentHash
deriving DecidableEq, Repr, Inhabited

/-- Exit points of `handleSmartAIRescan`, in source order. -/
inductive SmartRescanOutcome
  | offAvoided
  | noAIFindings
  | unchangedSkip
  | noModifiedLines
  | noneAffected
  | belowSeverity
  | fileScan
  | batchScan
  | noDispatch
deriving DecidableEq, Repr, Inhabited

/-- Exits that increment the `avoided` counter of the rescan statistics. -/
def SmartRescanOutcome.countsAvoided : SmartRescanOutcome → Bool
  | .offAvoided => true
  | .noAIFindings => true
  | .unchangedSkip => true
  | .noModifiedLines => true
  | .noneAffected => true
  | .belowSeverity => true
  | _ => false

/-- Truthiness of an optional JS number (`0` is falsy). -/
def truthyNat : Option Nat → Bool
  | none => false
  | some n => n ≠ 0

/-- The modified-lines / affected-findings / severity / dispatch part of
`handleSmartAIRescan`, reached once the hash-and-version staleness check has
not skipped. -/
def smartRescanAfterHashCheck (cfg : SmartRescanConfig) (aiFindings : List ExtendedFinding)
    (modifiedLines : List Nat) : SmartRescanOutcome :=
  if modifiedLines.isEmpty then .noModifiedLines
  else
    let affectedFindings := checkFindingsAffected aiFindings modifiedLines
      cfg.smartRescanContextLines
    if affectedFindings.isEmpty then .noneAffected
    else
      let filteredFindings := filterBySeverity affectedFindings cfg.smartRescanMinSeverity
      if filteredFindings.isEmpty then .belowSeverity
      else if cfg.smartRescan = "file" then .fileScan
      else if cfg.smartRescan = "batch" then .batchScan
      else .noDispatch

/-- The decision structure of the private `handleSmartAIRescan`.
`modifiedLines` is `changeTracker.getModifiedLines(document.path)`. The skip
requires the hash recorded at the last AI scan to equal the current content
hash, a truthy last-AI-scan timestamp, a recorded last-scan version and a
document version that has not advanced past it; a hash match with an advanced
version falls through to the modified-lines checks. -/
def handleSmartAIRescan (cfg : SmartRescanConfig) (allFindings : List ExtendedFinding)
    (book : AIScanBookkeeping) (doc : SmartRescanDocument) (modifiedLines : List Nat) :
    SmartRescanOutcome :=
  if cfg.smartRescan = "off" then .offAvoided
  else
    let aiFindings := filterAIFindings allFindings doc.path
    if aiFindings.isEmpty then .noAIFindings
    else
      if book.lastAIScanHash = some doc.contentHash ∧ truthyNat book.lastAIScanTimestamp then
        match book.lastAIScanVersion with
        | some lastScanVersion =>
          if doc.version ≤ lastScanVersion then .unchangedSkip
          else smartRescanAfterHashCheck cfg aiFindings modifiedLines
        | none => smartRescanAfterHashCheck cfg aiFindings modifiedLines
      else smartRescanAfterHashCheck cfg aiFindings modifiedLines

/-! Derived views used by the theorems. -/

/-- The related-finding ids attached to a finding (empty when no correlation
metadata or no id list is present). -/
def relIdsOf (f : ExtendedFinding) : List String :=
  (f.correlationMetadata.getD {}).relatedFindingIds.getD []

/-- Every field of a finding except `correlationMetadata`, for frame
statements about the correlation pass. -/
def frameOf (f : ExtendedFinding) :
    String × String × Severity × Confidence × String × String × Location ×
      Option ScannerType × Option AugmentedData × Option String × Option String ×
      Option Metadata :=
  (f.id, f.rule, f.severity, f.confidence, f.title, f.description, f.location,
    f.scannerType, f.augmentedData, f.scannerId, f.findingType, f.metadata)

/-- Mutual linkage: the id of the finding at any position occurs in the
related list at another position exactly when the converse holds. -/
def SymState (s : List ExtendedFinding) : Prop :=
  ∀ (i j : Nat) (fi fj : ExtendedFinding), s[i]? = some fi → s[j]? = some fj →
    (fj.id ∈ relIdsOf fi ↔ fi.id ∈ relIdsOf fj)

/-- No related list contains a duplicate id. -/
def NodupRelState (s : List ExtendedFinding) : Prop :=
  ∀ (i : Nat) (fi : ExtendedFinding), s[i]? = some fi → (relIdsOf fi).Nodup

/-- Invariant carried through the correlation pass: pairwise-distinct finding
ids, symmetric linkage, duplicate-free related lists. -/
def GoodState (s : List ExtendedFinding) : Prop :=
  (s.map (·.id)).Nodup ∧ SymState s ∧ NodupRelState s

/-- Modelled from the spec: the overlap fraction of the score formula,
`overlapLines / max(linesA, linesB)` with
`overlapLines = min(endA,endB) - max(startA,startB) + 1` when the same-file
line ranges intersect and `0` otherwise (ends are the effective end lines). -/
def specOverlapFraction (a b : ExtendedFinding) : ℚ :=
  let startA := a.location.line
  let endA := effEndLine a.location
  let startB := b.location.line
  let endB := effEndLine b.location
  if a.location.file = b.location.file ∧ max startA startB ≤ min endA endB then
    ((min endA endB : ℚ) - (max startA startB : ℚ) + 1) /
      max ((endA : ℚ) - (startA : ℚ) + 1) ((endB : ℚ) - (startB : ℚ) + 1)
  else 0

/-- Modelled from the spec: the full score formula
`min(1, 0.4·overlapFraction + 0.4·[similar type] + 0.1·[equal severity] +
0.1·[related_to back-reference])`. -/
def specCorrelationScore (a b : ExtendedFinding) : ℚ :=
  min (4/10 * specOverlapFraction a b +
    (if findingsAreSimilarType a b then 4/10 else 0) +
    (if a.severity = b.severity then 1/10 else 0) +
    (if metadataRelatedTo a = some b.id ∨ metadataRelatedTo b = some a.id then 1/10 else 0)) 1

/-! Concrete instances used by counterexamples and witnesses. -/

/-- Shared location: file `f.sol`, line 5 (no end line, so the effective
range is the single line 5). -/
def locLine5 : Location :=
  { file := "f.sol", line := 5, column := 1 }

/-- A deterministic finding of scanner `source_reentrancy` (scenario 2 of the
spec). Its rule matches the LLM finding's rule after prefix stripping. -/
def findSrcReentrancy : ExtendedFinding :=
  { id := "A", rule := "source_reentrancy", severity := .high, confidence := .medium,
    title := "Reentrancy", description := "det", location := locLine5,
    scannerId := some "source_reentrancy" }

/-- An LLM finding of scanner `llm_scanner` at the same location and
severity. -/
def findLlmReentrancy : ExtendedFinding :=
  { id := "B", rule := "reentrancy", severity := .high, confidence := .medium,
    title := "Reentrancy", description := "llm", location := locLine5,
    scannerId := some "llm_scanner" }

/-- Correlation metadata the pass attaches to the deterministic finding of
scenario 2. -/
def sc2_cmA : CorrelationMetadata :=
  { relatedFindingIds := some ["B"], correlationType := some CorrelationType.related,
    correlationScore := some (9/10), scannerAgreement := some Agreement.full }

/-- Correlation metadata the pass attaches to the LLM finding of
scenario 2. -/
def sc2_cmB : CorrelationMetadata :=
  { relatedFindingIds := some ["A"], correlationType := some CorrelationType.related,
    correlationScore := some (9/10), scannerAgreement := some Agreement.full }

/-- The deterministic finding of scenario 2 after correlation. -/
def sc2_linkedA : ExtendedFinding :=
  { findSrcReentrancy with correlationMetadata := some sc2_cmA }

/-- The LLM finding of scenario 2 after correlation. -/
def sc2_linkedB : ExtendedFinding :=
  { findLlmReentrancy with correlationMetadata := some sc2_cmB }

/-- Builder for the merge-idempotence counterexample findings. -/
def mkMergeFinding (i r : String) (ft : Option String) (sev : Severity) : ExtendedFinding :=
  { id := i, rule := r, severity := sev, confidence := .medium,
    title := "t", description := "d", location := locLine5, findingType := ft }

/-- Finding `a`: rule `r1`, finding type `X`, severity high. Duplicate of `c`
(shared finding type) but not of `b` (no shared type, different rule). -/
def mergeFindA : ExtendedFinding := mkMergeFinding "a" "r1" (some "X") .high

/-- Finding `b`: rule `r2`, no finding type, severity critical. Duplicate of
`c` (shared rule) but not of `a`. -/
def mergeFindB : ExtendedFinding := mkMergeFinding "b" "r2" none .critical

/-- Finding `c`: rule `r2`, finding type `X`, severity critical. Duplicate of
both `a` and `b`, so the duplicate relation is not transitive on the set. -/
def mergeFindC : ExtendedFinding := mkMergeFinding "c" "r2" (some "X") .critical

/-- The merge-idempotence counterexample input. -/
def mergeCxInput : List ExtendedFinding := [mergeFindA, mergeFindB, mergeFindC]

/-- A finding at line 5 for the merge witness (no duplicate partner). -/
def mergeNoDupA : ExtendedFinding :=
  { id := "x", rule := "r1", severity := .high, confidence := .medium,
    title := "t", description := "d",
    location := { file := "f.sol", line := 5, column := 1 } }

/-- A finding at line 50 for the merge witness (no duplicate partner). -/
def mergeNoDupB : ExtendedFinding :=
  { id := "y", rule := "r1", severity := .high, confidence := .medium,
    title := "t", description := "d",
    location := { file := "f.sol", line := 50, column := 1 } }

/-- A change event inserting three lines at original (1-based) line 10: a
zero-width range at 0-based line 9 replaced by text with three newlines. -/
def insertThreeAtLine10 : DocChangeEvent :=
  { languageId := "solidity", path := "f.sol", version := 2,
    contentChanges := [{ startLine := 9, endLine := 9, text := "x\ny\nz\n" }] }

/-- Tracker state after the three-line insertion, from an empty tracker. -/
def trackerAfterInsert : ChangeTrackerState :=
  onDocumentChanged {} insertThreeAtLine10

/-- Scheduler configuration that reaches the deterministic on-save path:
`smart` mode with smart rescan off falls through to deterministic
scheduling. -/
def detSaveCfg : SchedulerConfig :=
  { onSaveMode := .smart, smartRescan := "off" }

/-- A saved Solidity document of file `fp` with content `c`. -/
def saveDoc (fp c : String) : SavedDocument :=
  { path := fp, languageId := "solidity", fileName := fp, content := c, version := 1 }

/-- Scheduler state before the save burst: a recorded last-scanned hash and a
baseline epoch for the file, no pending scans or timers. -/
def initialSaveState (fp : String) (h0 : ContentHash) (b : Nat) : SchedulerState :=
  { lastScannedHash := [(fp, h0)], epochByFile := [(fp, b)] }

/-- Scheduler state after a save of content `c` was scheduled at epoch `e`:
the pending entry and the single debounce-timer slot both carry
`(md5 c, e)`. -/
def afterSaves (fp : String) (h0 : ContentHash) (e : Nat) (c : String) : SchedulerState :=
  { lastScannedHash := [(fp, h0)],
    epochByFile := [(fp, e)],
    pendingScans := [(fp, (.md5 c, e))],
    saveTimers := [(fp, (.md5 c, e))] }

/-- Folding a burst of saves of the same file over the scheduler. -/
def runSaves (cfg : SchedulerConfig) (st : SchedulerState) (fp : String) (cs : List String) :
    SchedulerState :=
  cs.foldl (fun s c => handleSave cfg [] s (saveDoc fp c)) st

/-- Two saves (`"A"` then `"B"`, last-scanned hash `md5 "Z"`, baseline epoch
0) followed by the debounce-timer firing on the unchanged document. -/
def debounceCxFinal : SchedulerState :=
  fireSaveTimer true (runSaves detSaveCfg (initialSaveState "g.sol" (.md5 "Z") 0) "g.sol"
    ["A", "B"]) "g.sol" (some "B")

/-- An AI finding on file `s.sol` for the smart-rescan witness. -/
def aiFindS : ExtendedFinding :=
  { id := "S", rule := "llm_reentrancy", severity := .high, confidence := .high,
    title := "s", description := "s",
    location := { file := "s.sol", line := 20, column := 1 },
    scannerType := some .llm }

/-- Smart-rescan bookkeeping recorded by a completed AI scan at version 3
with hash `sha256 "q"`. -/
def aiBookS : AIScanBookkeeping :=
  { lastAIScanHash := some (.sha256 "q"), lastAIScanTimestamp := some 5,
    lastAIScanVersion := some 3 }

/-- Smart-rescan configuration with batch mode enabled. -/
def smartCfgBatch : SmartRescanConfig :=
  { smartRescan := "batch" }

/-- Document facts for the smart-rescan witness: same hash as the last AI
scan; the version field varies per scenario. -/
def smartDocS (v : Nat) : SmartRescanDocument :=
  { path := "s.sol", version := v, contentHash := .sha256 "q" }

/-! Theorems. -/

/-- Accumulating walk of the shift map equals the original accumulator plus
the sum of the deltas whose key is within range. -/
theorem shift_foldl_eq_sum (L : Nat) (ds : List (Nat × Int)) (acc : Int) :
    ds.foldl (fun adjusted p => if p.1 ≤ L then adjusted + p.2 else adjusted) acc =
      acc + ((ds.filter (fun p => p.1 ≤ L)).map (·.2)).sum := by
  induction ds generalizing acc with
  | nil => simp
  | cons d ds ih =>
    by_cases h : d.1 ≤ L
    · simp [List.foldl_cons, List.filter_cons, h, ih, add_assoc]
    · simp [List.foldl_cons, List.filter_cons, h, ih]

/-- C9: after a tracked edit inserting three lines at original line 10 (and no
other tracked edits), `applyLineShift` maps line 15 to 18 and leaves line 8
unchanged; in general it returns the original line plus the summed deltas of
all shift-map entries whose key is at most that line, and returns the line
unchanged when the shift map for the file is empty or absent. -/
theorem applyLineShift_correct :
    (applyLineShift trackerAfterInsert "f.sol" 15 = 18 ∧
      applyLineShift trackerAfterInsert "f.sol" 8 = 8) ∧
    (∀ (st : ChangeTrackerState) (filePath : String) (originalLine : Nat),
      applyLineShift st filePath originalLine =
        (originalLine : Int) +
          ((((assocGet? st.lineDeltas filePath).getD []).filter
              (fun p => p.1 ≤ originalLine)).map (·.2)).sum) := by
  constructor
  · exact ⟨by decide, by decide⟩
  · intro st filePath originalLine
    unfold applyLineShift
    cases h : assocGet? st.lineDeltas filePath with
    | none => simp
    | some deltas =>
      by_cases hne : deltas.isEmpty
      · rw [List.isEmpty_iff] at hne
        simp [hne]
      · simp [hne, shift_foldl_eq_sum]

/-- C3 (code bug): a `findingsUpdated` notification without a `scanEpoch`
logs a warning and falls back to `loadFindings()`, which delegates to
`loadFindingsWithEpoch(0)`; since `lastAppliedScanEpoch` is initialised to
`0` and never decreases, the gate `0 ≤ lastAppliedScanEpoch` rejects
immediately: no findings are fetched and the state is untouched, whatever the
server would have answered. The documented fallback is therefore never an
unconditional reload. -/
theorem findingsUpdated_missing_epoch_never_reloads :
    ∀ srv : ServerResponse, handleFindingsUpdated {} none srv = ({}, false) :=
  fun _ => rfl

/-- A committing branch of the epoch gate records exactly the new epoch. -/
theorem loadFindings_gate_pass_applies (s : ProviderState) (e : Int) (srv : ServerResponse)
    (h1 : s.lastAppliedScanEpoch < e) (h2 : srv.applies = true) :
    (loadFindingsWithEpoch s e srv).1.lastAppliedScanEpoch = e := by
  unfold loadFindingsWithEpoch
  rw [if_neg (not_le.mpr h1)]
  cases srv <;> simp_all [ServerResponse.applies]

/-- Every notification either leaves the applied epoch unchanged or commits
its own strictly larger epoch. -/
theorem lastApplied_step (s : ProviderState) (e : Int) (srv : ServerResponse) :
    (loadFindingsWithEpoch s e srv).1.lastAppliedScanEpoch = s.lastAppliedScanEpoch ∨
      (s.lastAppliedScanEpoch < e ∧ srv.applies = true ∧
        (loadFindingsWithEpoch s e srv).1.lastAppliedScanEpoch = e) := by
  by_cases h : e ≤ s.lastAppliedScanEpoch
  · left
    unfold loadFindingsWithEpoch
    rw [if_pos h]
  · cases srv with
    | noClient => left; simp [loadFindingsWithEpoch, h]
    | withFindings fs =>
      right
      refine ⟨not_le.mp h, rfl, ?_⟩
      simp [loadFindingsWithEpoch, h]
    | withoutFindings =>
      right
      refine ⟨not_le.mp h, rfl, ?_⟩
      simp [loadFindingsWithEpoch, h]
    | error => left; simp [loadFindingsWithEpoch, h]

/-- The applied-epoch trace is a strictly increasing chain starting above the
state's current applied epoch. -/
theorem appliedEpochs_chain (ns : List (Int × ServerResponse)) :
    ∀ s : ProviderState,
      List.Chain' (· < ·) (s.lastAppliedScanEpoch :: appliedEpochs s ns) := by
  induction ns with
  | nil => intro s; simp [appliedEpochs]
  | cons n rest ih =>
    intro s
    obtain ⟨e, srv⟩ := n
    unfold appliedEpochs
    by_cases h : s.lastAppliedScanEpoch < e ∧ srv.applies = true
    · rw [if_pos h]
      have hs' : (loadFindingsWithEpoch s e srv).1.lastAppliedScanEpoch = e :=
        loadFindings_gate_pass_applies s e srv h.1 h.2
      have hrest := ih (loadFindingsWithEpoch s e srv).1
      rw [hs'] at hrest
      exact List.chain'_cons.mpr ⟨h.1, hrest⟩
    · rw [if_neg h]
      have hs' : (loadFindingsWithEpoch s e srv).1.lastAppliedScanEpoch =
          s.lastAppliedScanEpoch := by
        rcases lastApplied_step s e srv with h1 | ⟨h1, h2, _⟩
        · exact h1
        · exact absurd ⟨h1, h2⟩ h
      have hrest := ih (loadFindingsWithEpoch s e srv).1
      rwa [hs'] at hrest

/-- C1: a `findingsUpdated` notification with epoch `E` attempts a findings
reload exactly when `E` is strictly greater than the last applied epoch; a
notification with `E` at most the last applied epoch is a no-op leaving the
provider state unchanged; a reload whose server round trip succeeds commits
`E` as the new last applied epoch; and along any notification sequence the
applied epochs form a strictly increasing chain, so a stale result is never
applied. -/
theorem epoch_monotonicity :
    (∀ (s : ProviderState) (e : Int) (srv : ServerResponse),
      ((loadFindingsWithEpoch s e srv).2 = true ↔ s.lastAppliedScanEpoch < e)) ∧
    (∀ (s : ProviderState) (e : Int) (srv : ServerResponse),
      e ≤ s.lastAppliedScanEpoch → loadFindingsWithEpoch s e srv = (s, false)) ∧
    (∀ (s : ProviderState) (e : Int) (srv : ServerResponse),
      s.lastAppliedScanEpoch < e → srv.applies = true →
        (loadFindingsWithEpoch s e srv).1.lastAppliedScanEpoch = e) ∧
    (∀ (s : ProviderState) (ns : List (Int × ServerResponse)),
      List.Chain' (· < ·) (appliedEpochs s ns)) := by
  refine ⟨?_, ?_, ?_, ?_⟩
  · intro s e srv
    by_cases h : e ≤ s.lastAppliedScanEpoch
    · simp [loadFindingsWithEpoch, h, not_lt.mpr h]
    · cases srv <;> simp [loadFindingsWithEpoch, h, not_le.mp h]
  · intro s e srv h
    unfold loadFindingsWithEpoch
    rw [if_pos h]
  · exact loadFindings_gate_pass_applies
  · intro s ns
    exact (appliedEpochs_chain ns s).tail

/-- Witness for `epoch_monotonicity` at concrete inputs: epoch `0` against the
initial state is a no-op, epoch `1` with an empty successful response commits
`1`, and the resulting applied trace is a chain. -/
theorem epoch_monotonicity_witness :
    ((loadFindingsWithEpoch {} 0 .error).2 = true ↔ (0 : Int) < 0) ∧
    loadFindingsWithEpoch {} 0 .error = ({}, false) ∧
    (loadFindingsWithEpoch {} 1 .withoutFindings).1.lastAppliedScanEpoch = 1 ∧
    List.Chain' (· < ·) (appliedEpochs {} [(1, .withoutFindings)]) :=
  ⟨epoch_monotonicity.1 {} 0 .error,
    epoch_monotonicity.2.1 {} 0 .error (by decide),
    epoch_monotonicity.2.2.1 {} 1 .withoutFindings (by decide) rfl,
    epoch_monotonicity.2.2.2 {} [(1, .withoutFindings)]⟩

/-- C5: on save of a file with AI findings and smart AI rescan enabled, when
the current content hash equals the hash recorded at the last AI scan (with
its recorded timestamp and version), the rescan check skips exactly when the
document version has not advanced past the recorded version, and the skip is
counted as avoided; when the hash matches but the version has advanced, the
handler continues into the modified-lines / affected-findings checks. -/
theorem smart_rescan_hash_version_gate
    (cfg : SmartRescanConfig) (allFindings : List ExtendedFinding)
    (book : AIScanBookkeeping) (doc : SmartRescanDocument) (modifiedLines : List Nat)
    (v : Nat)
    (hOff : cfg.smartRescan ≠ "off")
    (hAI : filterAIFindings allFindings doc.path ≠ [])
    (hHash : book.lastAIScanHash = some doc.contentHash)
    (hTs : truthyNat book.lastAIScanTimestamp = true)
    (hV : book.lastAIScanVersion = some v) :
    (doc.version ≤ v →
      handleSmartAIRescan cfg allFindings book doc modifiedLines =
          SmartRescanOutcome.unchangedSkip ∧
        (handleSmartAIRescan cfg allFindings book doc modifiedLines).countsAvoided = true) ∧
    (v < doc.version →
      handleSmartAIRescan cfg allFindings book doc modifiedLines =
        smartRescanAfterHashCheck cfg (filterAIFindings allFindings doc.path) modifiedLines) := by
  have hne : ¬ (filterAIFindings allFindings doc.path).isEmpty = true := by
    simpa [List.isEmpty_iff] using hAI
  constructor
  · intro hle
    have heq : handleSmartAIRescan cfg allFindings book doc modifiedLines =
        SmartRescanOutcome.unchangedSkip := by
      simp [handleSmartAIRescan, hOff, hne, hHash, hTs, hV, hle]
    exact ⟨heq, by rw [heq]; rfl⟩
  · intro hlt
    simp [handleSmartAIRescan, hOff, hne, hHash, hTs, hV, not_le.mpr hlt]

/-- Witness for `smart_rescan_hash_version_gate`: with recorded scan version
3 and matching hash, a save at document version 3 skips (counted as avoided)
and a save at version 4 proceeds to the modified-lines stage. -/
theorem smart_rescan_hash_version_gate_witness :
    (handleSmartAIRescan smartCfgBatch [aiFindS] aiBookS (smartDocS 3) [] =
        SmartRescanOutcome.unchangedSkip ∧
      (handleSmartAIRescan smartCfgBatch [aiFindS] aiBookS (smartDocS 3) []).countsAvoided =
        true) ∧
    handleSmartAIRescan smartCfgBatch [aiFindS] aiBookS (smartDocS 4) [] =
      smartRescanAfterHashCheck smartCfgBatch
        (filterAIFindings [aiFindS] (smartDocS 4).path) [] :=
  ⟨(smart_rescan_hash_version_gate smartCfgBatch [aiFindS] aiBookS (smartDocS 3) [] 3
      (by decide) (by decide) rfl rfl rfl).1 (by decide),
    (smart_rescan_hash_version_gate smartCfgBatch [aiFindS] aiBookS (smartDocS 4) [] 3
      (by decide) (by decide) rfl rfl rfl).2 (by decide)⟩

/-- The code's overlap helper computes exactly the spec's overlap fraction,
including on malformed ranges (effective end before start), where both sides
yield `0`. -/
theorem calculateLocationOverlap_eq_spec (a b : ExtendedFinding) :
    calculateLocationOverlap a b = specOverlapFraction a b := by
  simp only [calculateLocationOverlap, specOverlapFraction]
  by_cases hf : a.location.file = b.location.file
  · simp only [hf, ne_eq, not_true_eq_false, if_false, true_and]
    by_cases hint : min (effEndLine a.location) (effEndLine b.location) <
        max a.location.line b.location.line
    · rw [if_pos hint, if_neg (not_le.mpr hint)]
    · rw [if_neg hint, if_pos (not_lt.mp hint)]
      push_cast
      ring
  · simp only [hf, ne_eq, not_false_eq_true, if_true, false_and, if_false]

/-- When `findingsOverlap` rejects a pair, the spec's overlap fraction is
zero. -/
theorem specOverlapFraction_eq_zero_of_not_overlap (a b : ExtendedFinding)
    (h : ¬ findingsOverlap a b = true) : specOverlapFraction a b = 0 := by
  simp only [findingsOverlap] at h
  simp only [specOverlapFraction]
  by_cases hf : a.location.file = b.location.file
  · simp only [hf, ne_eq, not_true_eq_false, if_false] at h
    rw [if_neg]
    rintro ⟨-, hle⟩
    apply h
    have h1 : ¬ (effEndLine a.location < b.location.line) := by omega
    have h2 : ¬ (effEndLine b.location < a.location.line) := by omega
    simp [h1, h2]
  · exact if_neg (fun hc => hf hc.1)

/-- The code's score equals the spec's formula. -/
theorem calculateCorrelationScore_eq_spec (a b : ExtendedFinding) :
    calculateCorrelationScore a b = specCorrelationScore a b := by
  simp only [calculateCorrelationScore, specCorrelationScore]
  by_cases ho : findingsOverlap a b = true
  · rw [if_pos ho, calculateLocationOverlap_eq_spec]
  · rw [if_neg ho, specOverlapFraction_eq_zero_of_not_overlap a b ho]
    norm_num

/-- The overlap fraction is nonnegative. -/
theorem calculateLocationOverlap_nonneg (a b : ExtendedFinding) :
    0 ≤ calculateLocationOverlap a b := by
  simp only [calculateLocationOverlap]
  split_ifs with h1 h2
  · exact le_refl (0 : ℚ)
  · exact le_refl (0 : ℚ)
  · apply div_nonneg
    · have hmm : max a.location.line b.location.line ≤
          min (effEndLine a.location) (effEndLine b.location) := by omega
      have hc := (Nat.cast_le (α := ℚ)).mpr hmm
      push_cast at hc ⊢
      linarith
    · have hse : a.location.line ≤ effEndLine a.location := by omega
      have hc := (Nat.cast_le (α := ℚ)).mpr hse
      refine le_trans ?_ (le_max_left _ _)
      linarith

/-- The score lies in `[0, 1]`. -/
theorem calculateCorrelationScore_bounds (a b : ExtendedFinding) :
    0 ≤ calculateCorrelationScore a b ∧ calculateCorrelationScore a b ≤ 1 := by
  unfold calculateCorrelationScore
  refine ⟨le_min ?_ (by norm_num), min_le_right _ _⟩
  have h := calculateLocationOverlap_nonneg a b
  split_ifs <;> nlinarith [h]

/-- C8: for all findings `a` and `b`, `calculateCorrelationScore(a,b)` equals
the spec's formula `min(1, 0.4·overlapFraction + 0.4·[similar type] +
0.1·[equal severity] + 0.1·[related_to back-reference])`, with
`overlapFraction = overlapLines / max(linesA, linesB)` and
`overlapLines = min(endA,endB) - max(startA,startB) + 1` when the same-file
line ranges intersect and `0` otherwise; consequently the score always lies in
`[0, 1]`. -/
theorem score_formula_and_bounds :
    ∀ a b : ExtendedFinding,
      calculateCorrelationScore a b = specCorrelationScore a b ∧
        0 ≤ calculateCorrelationScore a b ∧ calculateCorrelationScore a b ≤ 1 :=
  fun a b => ⟨calculateCorrelationScore_eq_spec a b, calculateCorrelationScore_bounds a b⟩

/-- Linking touches only the correlation metadata of a finding. -/
theorem frameOf_linkOne (f other : ExtendedFinding) (score : ℚ) :
    frameOf (linkOne f other score) = frameOf f := rfl

/-- Replacing an element with a frame-equal one does not change the frame
view of a list. -/
theorem map_frameOf_set (s : List ExtendedFinding) (i : Nat) (g fi : ExtendedFinding)
    (hget : s[i]? = some fi) (hfr : frameOf g = frameOf fi) :
    (s.set i g).map frameOf = s.map frameOf := by
  apply List.ext_getElem?
  intro n
  rw [List.getElem?_map, List.getElem?_map, List.getElem?_set]
  split_ifs with h1 h2
  · subst h1
    rw [hget]
    simp [hfr]
  · subst h1
    exact absurd hget (by simp [List.getElem?_eq_none (le_of_not_lt h2)])
  · rfl

/-- `linkFindings` preserves the frame view of the array. -/
theorem frameOf_linkFindings (s : List ExtendedFinding) (i j : Nat) (score : ℚ) :
    (linkFindings s i j score).map frameOf = s.map frameOf := by
  unfold linkFindings
  cases hi : s[i]? with
  | none => rfl
  | some fi =>
    cases hj : s[j]? with
    | none => rfl
    | some fj =>
      simp only
      by_cases hij : i = j
      · subst hij
        rw [List.set_set]
        have hfi : fi = fj := by
          rw [hi] at hj
          injection hj
        subst hfi
        exact map_frameOf_set s i _ fi hi (frameOf_linkOne _ _ _)
      · have hj2 : (s.set i (linkOne fi fj score))[j]? = some fj := by
          rw [List.getElem?_set_ne hij]; exact hj
        rw [map_frameOf_set _ j _ fj hj2 (frameOf_linkOne _ _ _)]
        exact map_frameOf_set s i _ fi hi (frameOf_linkOne _ _ _)

/-- Each pair step of the correlation loop preserves the frame view. -/
theorem frameOf_correlateStep (s : List ExtendedFinding) (p : Nat × Nat) :
    (correlateStep s p).map frameOf = s.map frameOf := by
  unfold correlateStep
  cases hi : s[p.1]? with
  | none => rfl
  | some fi =>
    cases hj : s[p.2]? with
    | none => rfl
    | some fj =>
      simp only
      split_ifs <;> first
        | rfl
        | exact frameOf_linkFindings s p.1 p.2 _

/-- The whole pair fold preserves the frame view. -/
theorem frameOf_correlateFold (ps : List (Nat × Nat)) :
    ∀ s : List ExtendedFinding, (ps.foldl correlateStep s).map frameOf = s.map frameOf := by
  induction ps with
  | nil => intro s; rfl
  | cons p ps ih =>
    intro s
    rw [List.foldl_cons, ih (correlateStep s p), frameOf_correlateStep]

/-- C10: `correlateFindings` returns exactly the input findings in input
order — it never adds, drops, or reorders findings — and for each finding it
mutates only the `correlationMetadata` field: id, rule, severity, confidence,
title, description, location (and the remaining non-correlation fields) are
unchanged by the pass. -/
theorem correlateFindings_frame :
    ∀ fs : List ExtendedFinding, (correlateFindings fs).map frameOf = fs.map frameOf :=
  fun fs => frameOf_correlateFold (allPairs fs) fs

/-- Linking appends the partner id exactly when it is absent, and touches
nothing else of the related list. -/
theorem relIdsOf_linkOne (f other : ExtendedFinding) (score : ℚ) :
    relIdsOf (linkOne f other score) =
      if other.id ∈ relIdsOf f then relIdsOf f else relIdsOf f ++ [other.id] := by
  simp only [linkOne, relIdsOf]
  split_ifs <;> rfl

/-- Distinct positions of a list with pairwise-distinct ids hold findings
with distinct ids. -/
theorem ids_ne_of_nodup {s : List ExtendedFinding} (h : (s.map (·.id)).Nodup)
    {i j : Nat} {fi fj : ExtendedFinding} (hi : s[i]? = some fi) (hj : s[j]? = some fj)
    (hij : i ≠ j) : fi.id ≠ fj.id := by
  obtain ⟨hli, hgi⟩ := List.getElem?_eq_some_iff.mp hi
  obtain ⟨hlj, hgj⟩ := List.getElem?_eq_some_iff.mp hj
  intro he
  apply hij
  have hlen : i < (s.map (·.id)).length := by simpa using hli
  have hlen2 : j < (s.map (·.id)).length := by simpa using hlj
  have hval : (s.map (·.id)).get ⟨i, hlen⟩ = (s.map (·.id)).get ⟨j, hlen2⟩ := by
    simp only [List.get_eq_getElem, List.getElem_map]
    rw [hgi, hgj, he]
  have hfin := (List.Nodup.get_inj_iff h).mp hval
  simpa using hfin

/-- Frame-equal lists have the same id sequence. -/
theorem ids_map_eq_of_frame {s t : List ExtendedFinding}
    (h : s.map frameOf = t.map frameOf) : s.map (·.id) = t.map (·.id) := by
  have h1 : s.map (·.id) = (s.map frameOf).map (·.1) := by
    rw [List.map_map]; rfl
  have h2 : t.map (·.id) = (t.map frameOf).map (·.1) := by
    rw [List.map_map]; rfl
  rw [h1, h2, h]

/-- Symmetry of the linkage follows from the one-directional statement, which
is itself symmetric under swapping the two positions. -/
theorem symState_of_mono {s : List ExtendedFinding}
    (H : ∀ (a b : Nat) (fa fb : ExtendedFinding), s[a]? = some fa → s[b]? = some fb →
      fb.id ∈ relIdsOf fa → fa.id ∈ relIdsOf fb) : SymState s :=
  fun a b fa fb ha hb => ⟨H a b fa fb ha hb, H b a fb fa hb ha⟩

/-- One link step preserves the linkage invariant. -/
theorem GoodState_linkFindings {s : List ExtendedFinding} (i j : Nat) (score : ℚ)
    (h : GoodState s) : GoodState (linkFindings s i j score) := by
  obtain ⟨hnd, hsym, hrel⟩ := h
  unfold linkFindings
  cases hi : s[i]? with
  | none => exact ⟨hnd, hsym, hrel⟩
  | some fi =>
    cases hj : s[j]? with
    | none => exact ⟨hnd, hsym, hrel⟩
    | some fj =>
      simp only
      obtain ⟨hli, -⟩ := List.getElem?_eq_some_iff.mp hi
      obtain ⟨hlj, -⟩ := List.getElem?_eq_some_iff.mp hj
      by_cases hij : i = j
      · subst hij
        have hfe : fj = fi := by rw [hi] at hj; injection hj with hj2; exact hj2.symm
        subst hfe
        rw [List.set_set]
        have hget : ∀ k : Nat, (s.set i (linkOne fj fj score))[k]? =
            if i = k then some (linkOne fj fj score) else s[k]? := by
          intro k
          rw [List.getElem?_set]
          by_cases h1 : i = k
          · rw [if_pos h1, if_pos h1, if_pos hli]
          · rw [if_neg h1, if_neg h1]
        have hmem : ∀ x, x ∈ relIdsOf (linkOne fj fj score) ↔ x ∈ relIdsOf fj ∨ x = fj.id := by
          intro x
          rw [relIdsOf_linkOne]
          split_ifs with hcc
          · exact ⟨Or.inl, fun hx => hx.elim id (fun he => he ▸ hcc)⟩
          · simp
        refine ⟨?_, ?_, ?_⟩
        · rw [ids_map_eq_of_frame (map_frameOf_set s i _ fj hi (frameOf_linkOne _ _ _))]
          exact hnd
        · apply symState_of_mono
          intro a b fa fb ha hb hmemab
          rw [hget a] at ha
          rw [hget b] at hb
          by_cases hab : a = b
          · subst hab
            have hfab := ha.symm.trans hb
            injection hfab with hfab
            subst hfab
            exact hmemab
          · by_cases hia : i = a <;> by_cases hib : i = b
            · exact absurd (hia.symm.trans hib) hab
            · rw [if_pos hia] at ha
              injection ha with ha
              subst ha
              rw [if_neg hib] at hb
              have hbne : fb.id ≠ fj.id :=
                ids_ne_of_nodup hnd hb hi (fun he => hib he.symm)
              have hin : fb.id ∈ relIdsOf fj := ((hmem fb.id).mp hmemab).resolve_right hbne
              exact (hsym i b fj fb hi hb).mp hin
            · rw [if_neg hia] at ha
              rw [if_pos hib] at hb
              injection hb with hb
              subst hb
              have hin : fj.id ∈ relIdsOf fa := hmemab
              exact (hmem _).mpr (Or.inl ((hsym a i fa fj ha hi).mp hin))
            · rw [if_neg hia] at ha
              rw [if_neg hib] at hb
              exact (hsym a b fa fb ha hb).mp hmemab
        · intro k fk hk
          rw [hget k] at hk
          by_cases hk1 : i = k
          · rw [if_pos hk1] at hk
            injection hk with hk
            subst hk
            rw [relIdsOf_linkOne]
            split_ifs with hcc
            · exact hrel i fj hi
            · simp [List.nodup_append, hrel i fj hi, hcc]
          · rw [if_neg hk1] at hk
            exact hrel k fk hk
      · have hj2 : (s.set i (linkOne fi fj score))[j]? = some fj := by
          rw [List.getElem?_set_ne hij]; exact hj
        have hget : ∀ k : Nat,
            ((s.set i (linkOne fi fj score)).set j (linkOne fj fi score))[k]? =
              if j = k then some (linkOne fj fi score)
              else if i = k then some (linkOne fi fj score) else s[k]? := by
          intro k
          rw [List.getElem?_set, List.getElem?_set]
          simp only [List.length_set]
          by_cases hk1 : j = k
          · rw [if_pos hk1, if_pos hk1, if_pos hlj]
          · rw [if_neg hk1, if_neg hk1]
            by_cases hk2 : i = k
            · rw [if_pos hk2, if_pos hk2, if_pos hli]
            · rw [if_neg hk2, if_neg hk2]
        have hmemg : ∀ x, x ∈ relIdsOf (linkOne fi fj score) ↔
            x ∈ relIdsOf fi ∨ x = fj.id := by
          intro x
          rw [relIdsOf_linkOne]
          split_ifs with hcc
          · exact ⟨Or.inl, fun hx => hx.elim id (fun he => he ▸ hcc)⟩
          · simp
        have hmemh : ∀ x, x ∈ relIdsOf (linkOne fj fi score) ↔
            x ∈ relIdsOf fj ∨ x = fi.id := by
          intro x
          rw [relIdsOf_linkOne]
          split_ifs with hcc
          · exact ⟨Or.inl, fun hx => hx.elim id (fun he => he ▸ hcc)⟩
          · simp
        refine ⟨?_, ?_, ?_⟩
        · rw [ids_map_eq_of_frame ((map_frameOf_set _ j _ fj hj2
            (frameOf_linkOne _ _ _)).trans (map_frameOf_set s i _ fi hi
            (frameOf_linkOne _ _ _)))]
          exact hnd
        · apply symState_of_mono
          intro a b fa fb ha hb hmemab
          rw [hget a] at ha
          rw [hget b] at hb
          by_cases hab : a = b
          · subst hab
            have hfab := ha.symm.trans hb
            injection hfab with hfab
            subst hfab
            exact hmemab
          · by_cases hja : j = a
            · rw [if_pos hja] at ha
              injection ha with ha
              subst ha
              by_cases hjb : j = b
              · exact absurd (hja.symm.trans hjb) hab
              · rw [if_neg hjb] at hb
                by_cases hib : i = b
                · rw [if_pos hib] at hb
                  injection hb with hb
                  subst hb
                  exact (hmemg _).mpr (Or.inr rfl)
                · rw [if_neg hib] at hb
                  have hbne : fb.id ≠ fi.id :=
                    ids_ne_of_nodup hnd hb hi (fun he => hib he.symm)
                  have hin : fb.id ∈ relIdsOf fj :=
                    ((hmemh fb.id).mp hmemab).resolve_right hbne
                  exact (hsym j b fj fb hj hb).mp hin
            · rw [if_neg hja] at ha
              by_cases hia : i = a
              · rw [if_pos hia] at ha
                injection ha with ha
                subst ha
                by_cases hjb : j = b
                · rw [if_pos hjb] at hb
                  injection hb with hb
                  subst hb
                  exact (hmemh _).mpr (Or.inr rfl)
                · rw [if_neg hjb] at hb
                  by_cases hib : i = b
                  · exact absurd (hia.symm.trans hib) hab
                  · rw [if_neg hib] at hb
                    have hbne : fb.id ≠ fj.id :=
                      ids_ne_of_nodup hnd hb hj (fun he => hjb he.symm)
                    have hin : fb.id ∈ relIdsOf fi :=
                      ((hmemg fb.id).mp hmemab).resolve_right hbne
                    exact (hsym i b fi fb hi hb).mp hin
              · rw [if_neg hia] at ha
                by_cases hjb : j = b
                · rw [if_pos hjb] at hb
                  injection hb with hb
                  subst hb
                  have hin : fj.id ∈ relIdsOf fa := hmemab
                  exact (hmemh _).mpr (Or.inl ((hsym a j fa fj ha hj).mp hin))
                · rw [if_neg hjb] at hb
                  by_cases hib : i = b
                  · rw [if_pos hib] at hb
                    injection hb with hb
                    subst hb
                    have hin : fi.id ∈ relIdsOf fa := hmemab
                    exact (hmemg _).mpr (Or.inl ((hsym a i fa fi ha hi).mp hin))
                  · rw [if_neg hib] at hb
                    exact (hsym a b fa fb ha hb).mp hmemab
        · intro k fk hk
          rw [hget k] at hk
          by_cases hk1 : j = k
          · rw [if_pos hk1] at hk
            injection hk with hk
            subst hk
            rw [relIdsOf_linkOne]
            split_ifs with hcc
            · exact hrel j fj hj
            · simp [List.nodup_append, hrel j fj hj, hcc]
          · rw [if_neg hk1] at hk
            by_cases hk2 : i = k
            · rw [if_pos hk2] at hk
              injection hk with hk
              subst hk
              rw [relIdsOf_linkOne]
              split_ifs with hcc
              · exact hrel i fi hi
              · simp [List.nodup_append, hrel i fi hi, hcc]
            · rw [if_neg hk2] at hk
              exact hrel k fk hk

/-- Each pair step of the correlation loop preserves the linkage invariant. -/
theorem GoodState_correlateStep {s : List ExtendedFinding} (p : Nat × Nat)
    (h : GoodState s) : GoodState (correlateStep s p) := by
  unfold correlateStep
  cases hi : s[p.1]? with
  | none => exact h
  | some fi =>
    cases hj : s[p.2]? with
    | none => exact h
    | some fj =>
      simp only
      split_ifs <;> first
        | exact h
        | exact GoodState_linkFindings p.1 p.2 _ h

/-- The whole pair fold preserves the linkage invariant. -/
theorem GoodState_fold (ps : List (Nat × Nat)) :
    ∀ s : List ExtendedFinding, GoodState s → GoodState (ps.foldl correlateStep s) := by
  induction ps with
  | nil => exact fun s h => h
  | cons p ps ih => exact fun s h => ih _ (GoodState_correlateStep p h)

/-- A batch with pairwise-distinct ids and no prior correlation metadata
satisfies the linkage invariant (all related lists are empty). -/
theorem GoodState_initial (fs : List ExtendedFinding)
    (hnd : (fs.map (·.id)).Nodup)
    (hmeta : ∀ f ∈ fs, f.correlationMetadata = none) : GoodState fs := by
  have hempty : ∀ (k : Nat) (fk : ExtendedFinding), fs[k]? = some fk → relIdsOf fk = [] := by
    intro k fk hk
    obtain ⟨hlk, hgk⟩ := List.getElem?_eq_some_iff.mp hk
    have hfm : fk ∈ fs := hgk ▸ List.getElem_mem hlk
    rw [relIdsOf, hmeta fk hfm]
    rfl
  refine ⟨hnd, ?_, ?_⟩
  · intro a b fa fb ha hb
    rw [hempty a fa ha, hempty b fb hb]
    simp
  · intro k fk hk
    rw [hempty k fk hk]
    exact List.nodup_nil

/-- C7: for any two findings `A` and `B` of an input batch whose findings
carry no prior correlation metadata (and whose ids are pairwise distinct, as
finding ids are stable identifiers), after `correlateFindings` runs, `A`'s
`relatedFindingIds` contains `B.id` exactly when `B`'s contains `A.id`, and
no related list contains a duplicate id. -/
theorem correlate_symmetry (fs : List ExtendedFinding)
    (hnd : (fs.map (·.id)).Nodup)
    (hmeta : ∀ f ∈ fs, f.correlationMetadata = none) :
    (∀ a ∈ correlateFindings fs, ∀ b ∈ correlateFindings fs,
      (b.id ∈ relIdsOf a ↔ a.id ∈ relIdsOf b)) ∧
    (∀ a ∈ correlateFindings fs, (relIdsOf a).Nodup) := by
  obtain ⟨-, hsym, hrel⟩ :=
    GoodState_fold (allPairs fs) fs (GoodState_initial fs hnd hmeta)
  constructor
  · intro a ha b hb
    obtain ⟨ia, hla, hga⟩ := List.mem_iff_getElem.mp ha
    obtain ⟨ib, hlb, hgb⟩ := List.mem_iff_getElem.mp hb
    exact hsym ia ib a b (List.getElem?_eq_some_iff.mpr ⟨hla, hga⟩)
      (List.getElem?_eq_some_iff.mpr ⟨hlb, hgb⟩)
  · intro a ha
    obtain ⟨ia, hla, hga⟩ := List.mem_iff_getElem.mp ha
    exact hrel ia a (List.getElem?_eq_some_iff.mpr ⟨hla, hga⟩)

/-- Witness for `correlate_symmetry` on the concrete two-finding batch of
scenario 2. -/
theorem correlate_symmetry_witness :
    (∀ a ∈ correlateFindings [findSrcReentrancy, findLlmReentrancy],
      ∀ b ∈ correlateFindings [findSrcReentrancy, findLlmReentrancy],
        (b.id ∈ relIdsOf a ↔ a.id ∈ relIdsOf b)) ∧
    (∀ a ∈ correlateFindings [findSrcReentrancy, findLlmReentrancy], (relIdsOf a).Nodup) :=
  correlate_symmetry [findSrcReentrancy, findLlmReentrancy] (by decide) (by decide)

/-- Lookup on a singleton association list. -/
theorem assocGet?_singleton {κ α : Type} [DecidableEq κ] (k : κ) (v : α) :
    assocGet? [(k, v)] k = some v := by
  simp [assocGet?, List.find?]

/-- Update on a singleton association list with the same key. -/
theorem assocSet_singleton {κ α : Type} [DecidableEq κ] (k : κ) (v w : α) :
    assocSet [(k, v)] k w = [(k, w)] := by
  simp [assocSet]

/-- Update on the empty association list. -/
theorem assocSet_nil {κ α : Type} [DecidableEq κ] (k : κ) (v : α) :
    assocSet ([] : List (κ × α)) k v = [(k, v)] := by
  simp [assocSet]

/-- Deletion on a singleton association list. -/
theorem assocDelete_singleton {κ α : Type} [DecidableEq κ] (k : κ) (v : α) :
    assocDelete [(k, v)] k = [] := by
  simp [assocDelete]

/-- Unfolding of `runSaves` on a cons. -/
theorem runSaves_cons (cfg : SchedulerConfig) (st : SchedulerState) (fp c : String)
    (cs : List String) :
    runSaves cfg st fp (c :: cs) =
      runSaves cfg (handleSave cfg [] st (saveDoc fp c)) fp cs := rfl

/-- A first save with a fresh hash allocates epoch `b + 1` and schedules the
pending scan and timer. -/
theorem handleSave_det_initial (fp c : String) (h0 : ContentHash) (b : Nat)
    (hne : ContentHash.md5 c ≠ h0) :
    handleSave detSaveCfg [] (initialSaveState fp h0 b) (saveDoc fp c) =
      afterSaves fp h0 (b + 1) c := by
  simp [handleSave, detSaveCfg, initialSaveState, afterSaves, saveDoc, isSolidityOrYul,
    hashContent, filterAIFindings, assocGet?_singleton, assocSet_singleton, assocSet_nil,
    Ne.symm hne]

/-- A further save within the window with a fresh hash bumps the epoch again
and replaces the pending entry and the timer. -/
theorem handleSave_det_next (fp c0 c : String) (h0 : ContentHash) (e : Nat)
    (hne : ContentHash.md5 c ≠ h0) :
    handleSave detSaveCfg [] (afterSaves fp h0 e c0) (saveDoc fp c) =
      afterSaves fp h0 (e + 1) c := by
  simp [handleSave, detSaveCfg, afterSaves, saveDoc, isSolidityOrYul,
    hashContent, filterAIFindings, assocGet?_singleton, assocSet_singleton, assocSet_nil,
    Ne.symm hne]

/-- Folding a burst of fresh-hash saves over a scheduled state advances the
epoch once per save and keeps the last save's hash in the single timer
slot. -/
theorem runSaves_shape (fp : String) (h0 : ContentHash) (cs : List String) :
    ∀ (e : Nat) (c0 : String), (∀ c ∈ cs, ContentHash.md5 c ≠ h0) →
      runSaves detSaveCfg (afterSaves fp h0 e c0) fp cs =
        afterSaves fp h0 (e + cs.length) (cs.getLastD c0) := by
  induction cs with
  | nil => intro e c0 _; simp [runSaves]
  | cons c cs ih =>
    intro e c0 hall
    rw [runSaves_cons, handleSave_det_next fp c0 c h0 e (hall c (by simp))]
    rw [ih (e + 1) c (fun x hx => hall x (by simp [hx]))]
    have h1 : e + 1 + cs.length = e + (c :: cs).length := by simp; omega
    have h2 : cs.getLastD c = (c :: cs).getLastD c0 := (List.getLastD_cons c0 c cs).symm
    rw [h1, h2]

/-- Firing the debounce timer on the unchanged document sends exactly one
request with the captured hash and epoch. -/
theorem fireSaveTimer_afterSaves (fp : String) (h0 : ContentHash) (e : Nat) (c : String) :
    fireSaveTimer true (afterSaves fp h0 e c) fp (some c) =
      { afterSaves fp h0 e c with saveTimers := [], requests := [(fp, .md5 c, e)] } := by
  simp [fireSaveTimer, scheduleScanWithEpoch, afterSaves, assocGet?_singleton,
    assocDelete_singleton, hashContent]

/-- Counterexample to C2 as stated: saving twice in the debounce window
(last-scanned hash `md5 "Z"`, baseline epoch 0, saves `"A"` then `"B"`)
produces exactly one request, carrying the hash of the last save — but at
epoch 2: the epoch counter is incremented once per save, not once per
window, so it ends two beyond the baseline instead of one. -/
theorem debounce_epoch_counterexample :
    debounceCxFinal.requests = [("g.sol", ContentHash.md5 "B", 2)] ∧
    assocGet? debounceCxFinal.epochByFile "g.sol" = some 2 ∧ ¬ (2 : Nat) = 0 + 1 := by
  decide

/-- C2 (amended): if a tracked file is saved one or more times within the
debounce window on the deterministic on-save path, each save's content hash
differing from the last-scanned hash, exactly one scan request is sent, that
request uses the content hash of the last save in the window, and the file's
epoch counter is incremented once per save — after `N` coalesced saves it
stands `N` beyond its baseline, and the single request carries that final
epoch. -/
theorem debounce_coalescing_amended (fp : String) (h0 : ContentHash) (b : Nat)
    (c : String) (cs : List String)
    (hall : ∀ x ∈ c :: cs, ContentHash.md5 x ≠ h0) :
    (fireSaveTimer true
        (runSaves detSaveCfg (initialSaveState fp h0 b) fp (c :: cs)) fp
        (some (cs.getLastD c))).requests =
      [(fp, ContentHash.md5 (cs.getLastD c), b + (c :: cs).length)] ∧
    assocGet? (fireSaveTimer true
        (runSaves detSaveCfg (initialSaveState fp h0 b) fp (c :: cs)) fp
        (some (cs.getLastD c))).epochByFile fp =
      some (b + (c :: cs).length) := by
  have hrun : runSaves detSaveCfg (initialSaveState fp h0 b) fp (c :: cs) =
      afterSaves fp h0 (b + (c :: cs).length) (cs.getLastD c) := by
    rw [runSaves_cons, handleSave_det_initial fp c h0 b (hall c (by simp)),
      runSaves_shape fp h0 cs (b + 1) c (fun x hx => hall x (by simp [hx]))]
    have h1 : b + 1 + cs.length = b + (c :: cs).length := by simp; omega
    rw [h1]
  rw [hrun, fireSaveTimer_afterSaves]
  exact ⟨rfl, by simp [afterSaves, assocGet?_singleton]⟩

/-- Witness for `debounce_coalescing_amended` at the concrete two-save
burst. -/
theorem debounce_coalescing_amended_witness :
    (fireSaveTimer true
        (runSaves detSaveCfg (initialSaveState "g.sol" (.md5 "Z") 0) "g.sol"
          ("A" :: ["B"])) "g.sol" (some (["B"].getLastD "A"))).requests =
      [("g.sol", ContentHash.md5 (["B"].getLastD "A"), 0 + ("A" :: ["B"]).length)] ∧
    assocGet? (fireSaveTimer true
        (runSaves detSaveCfg (initialSaveState "g.sol" (.md5 "Z") 0) "g.sol"
          ("A" :: ["B"])) "g.sol" (some (["B"].getLastD "A"))).epochByFile "g.sol" =
      some (0 + ("A" :: ["B"]).length) :=
  debounce_coalescing_amended "g.sol" (.md5 "Z") 0 "A" ["B"] (by decide)

/-- Scanner id `source_reentrancy` classifies as `source`, not
`deterministic`. -/
theorem sc2_t1 : getScannerType "source_reentrancy" = ScannerType.source := by decide

/-- Scanner id `llm_scanner` classifies as `llm`. -/
theorem sc2_t2 : getScannerType "llm_scanner" = ScannerType.llm := by decide

/-- The scenario-2 findings overlap (same file and line). -/
theorem sc2_ov : findingsOverlap findSrcReentrancy findLlmReentrancy = true := by decide

/-- The scenario-2 rules are similar after prefix stripping. -/
theorem sc2_sim : findingsAreSimilarType findSrcReentrancy findLlmReentrancy = true := by
  decide

/-- Similarity of the scenario-2 findings in the reverse order. -/
theorem sc2_sim2 : findingsAreSimilarType findLlmReentrancy findSrcReentrancy = true := by
  decide

/-- Full overlap of the two single-line ranges. -/
theorem sc2_loc : calculateLocationOverlap findSrcReentrancy findLlmReentrancy = 1 := by
  norm_num [calculateLocationOverlap, findSrcReentrancy, findLlmReentrancy, locLine5,
    effEndLine]

/-- The scenario-2 score: `0.4·1 + 0.4 + 0.1 = 0.9`. -/
theorem sc2_score : calculateCorrelationScore findSrcReentrancy findLlmReentrancy = 9/10 := by
  simp only [calculateCorrelationScore, sc2_ov, sc2_sim, sc2_loc,
    show findSrcReentrancy.severity = Severity.high from rfl,
    show findLlmReentrancy.severity = Severity.high from rfl,
    show metadataRelatedTo findSrcReentrancy = none from rfl,
    show metadataRelatedTo findLlmReentrancy = none from rfl]
  simp
  norm_num [min_def]

/-- Scanner type of the deterministic finding via its scanner id. -/
theorem sc2_tyA : getScannerType (findSrcReentrancy.scannerId.getD "") =
    ScannerType.source := sc2_t1

/-- Scanner type of the LLM finding via its scanner id. -/
theorem sc2_tyB : getScannerType (findLlmReentrancy.scannerId.getD "") =
    ScannerType.llm := sc2_t2

/-- The inferred correlation type of the linked pair is `related`: the
augmentation branch requires types exactly `llm`/`deterministic`, but the
pair is `source`/`llm`; the duplicate branch requires equal types; and the
severities are equal. -/
theorem sc2_inf1 : inferCorrelationType findSrcReentrancy findLlmReentrancy (9/10) =
    CorrelationType.related := by
  simp only [inferCorrelationType, sc2_tyA, sc2_tyB, sevIdx4,
    show findSrcReentrancy.severity = Severity.high from rfl,
    show findLlmReentrancy.severity = Severity.high from rfl]
  norm_num
  decide

/-- The inferred correlation type from the LLM finding's side is also
`related`. -/
theorem sc2_inf2 : inferCorrelationType findLlmReentrancy findSrcReentrancy (9/10) =
    CorrelationType.related := by
  simp only [inferCorrelationType, sc2_tyA, sc2_tyB, sevIdx4,
    show findSrcReentrancy.severity = Severity.high from rfl,
    show findLlmReentrancy.severity = Severity.high from rfl]
  norm_num
  decide

/-- Scanner agreement of the pair (equal severity, similar type). -/
theorem sc2_ag1 : determineScannerAgreement findSrcReentrancy findLlmReentrancy =
    Agreement.full := by
  simp [determineScannerAgreement, sc2_sim,
    show findSrcReentrancy.severity = Severity.high from rfl,
    show findLlmReentrancy.severity = Severity.high from rfl]

/-- Scanner agreement of the pair in the reverse order. -/
theorem sc2_ag2 : determineScannerAgreement findLlmReentrancy findSrcReentrancy =
    Agreement.full := by
  simp [determineScannerAgreement, sc2_sim2,
    show findSrcReentrancy.severity = Severity.high from rfl,
    show findLlmReentrancy.severity = Severity.high from rfl]

/-- The two scenario-2 findings share the single spatial bucket, producing
the one pair `(0, 1)`. -/
theorem sc2_pairs : allPairs [findSrcReentrancy, findLlmReentrancy] = [(0, 1)] := by decide

/-- Linking attaches the computed metadata to the deterministic finding. -/
theorem sc2_link1 : linkOne findSrcReentrancy findLlmReentrancy (9/10) = sc2_linkedA := by
  simp only [linkOne, sc2_inf1, sc2_ag1]
  rfl

/-- Linking attaches the computed metadata to the LLM finding. -/
theorem sc2_link2 : linkOne findLlmReentrancy findSrcReentrancy (9/10) = sc2_linkedB := by
  simp only [linkOne, sc2_inf2, sc2_ag2]
  rfl

/-- `linkFindings` on the two-element array updates both slots. -/
theorem sc2_linkF : ∀ sc : ℚ, linkFindings [findSrcReentrancy, findLlmReentrancy] 0 1 sc =
    [linkOne findSrcReentrancy findLlmReentrancy sc,
      linkOne findLlmReentrancy findSrcReentrancy sc] := fun _ => rfl

/-- Full evaluation of the correlation pass on the scenario-2 pair. -/
theorem sc2_eval : correlateFindings [findSrcReentrancy, findLlmReentrancy] =
    [sc2_linkedA, sc2_linkedB] := by
  rw [correlateFindings, sc2_pairs]
  simp only [List.foldl_cons, List.foldl_nil, correlateStep,
    show ([findSrcReentrancy, findLlmReentrancy] : List ExtendedFinding)[0]? =
      some findSrcReentrancy from rfl,
    show ([findSrcReentrancy, findLlmReentrancy] : List ExtendedFinding)[1]? =
      some findLlmReentrancy from rfl,
    sc2_tyA, sc2_tyB]
  rw [if_neg (by decide), sc2_score, if_pos (by norm_num), sc2_linkF, sc2_link1, sc2_link2]

/-- Counterexample to C4 as stated: the deterministic finding of scanner
`source_reentrancy` and the LLM finding of scanner `llm_scanner`, at the same
file and line with overlapping ranges, equal severity and similar rules, get
linked by `correlateFindings` — but the assigned `correlationType` is
`related`, not `augmentation`: `getScannerType` classifies
`source_reentrancy` as `source`, and the augmentation branch of
`inferCorrelationType` requires exactly a `deterministic`/`llm` pair. -/
theorem scenario2_not_augmentation :
    ((correlateFindings [findSrcReentrancy, findLlmReentrancy]).map
        (fun f => (f.correlationMetadata.getD {}).correlationType)) =
      [some CorrelationType.related, some CorrelationType.related] ∧
    CorrelationType.related ≠ CorrelationType.augmentation := by
  rw [sc2_eval]
  exact ⟨rfl, by decide⟩

/-- C4 (amended): for the pair of a deterministic finding with scanner id
`source_reentrancy` and an LLM finding with scanner id `llm_scanner` at the
same file and line with overlapping ranges, equal severity and rules that
match after family-prefix stripping (so the score `0.9` exceeds the `0.7`
link threshold), `correlateFindings` links the two findings mutually and
assigns the linked pair `correlationType 'related'` — not `'augmentation'`,
which is reserved for pairs classified exactly `deterministic`/`llm`. -/
theorem scenario2_links_with_related :
    ((correlateFindings [findSrcReentrancy, findLlmReentrancy]).map
        (fun f => (relIdsOf f, (f.correlationMetadata.getD {}).correlationType))) =
      [(["B"], some CorrelationType.related), (["A"], some CorrelationType.related)] := by
  rw [sc2_eval]
  rfl

/-- Findings `a` and `b` of the merge counterexample are not duplicates
(their rules differ and only one carries a finding type). -/
theorem cx_dab : areDuplicates mergeFindA mergeFindB = false := by decide

/-- Findings `a` and `c` share the finding type `X`. -/
theorem cx_sim_ac : findingsAreSimilarType mergeFindA mergeFindC = true := by decide

/-- Findings `a` and `c` overlap fully. -/
theorem cx_ov_ac : findingsOverlap mergeFindA mergeFindC = true := by decide

/-- Overlap fraction of `a` and `c`. -/
theorem cx_loc_ac : calculateLocationOverlap mergeFindA mergeFindC = 1 := by
  norm_num [calculateLocationOverlap, mergeFindA, mergeFindC, mkMergeFinding, locLine5,
    effEndLine]

/-- Score of `a` and `c`: `0.4 + 0.4` (severities differ), exactly the
duplicate threshold. -/
theorem cx_score_ac : calculateCorrelationScore mergeFindA mergeFindC = 8/10 := by
  simp only [calculateCorrelationScore, cx_ov_ac, cx_sim_ac, cx_loc_ac,
    show mergeFindA.severity = Severity.high from rfl,
    show mergeFindC.severity = Severity.critical from rfl,
    show metadataRelatedTo mergeFindA = none from rfl,
    show metadataRelatedTo mergeFindC = none from rfl]
  simp
  norm_num [min_def]

/-- Findings `a` and `c` are duplicates. -/
theorem cx_dac : areDuplicates mergeFindA mergeFindC = true := by
  simp only [areDuplicates, cx_sim_ac, cx_score_ac,
    show mergeFindA.location = locLine5 from rfl,
    show mergeFindC.location = locLine5 from rfl]
  norm_num

/-- The merged `{a, c}` representative keeps the id of the highest-severity
member `c`. -/
theorem cx_mid : (mergeFindingGroup [mergeFindA, mergeFindC]).id = "c" := rfl

/-- The merged `{a, c}` representative inherits rule `r2` from `c` and so is
similar to `b`. -/
theorem cx_sim_mb : findingsAreSimilarType (mergeFindingGroup [mergeFindA, mergeFindC])
    mergeFindB = true := by decide

/-- The merged representative still overlaps `b`. -/
theorem cx_ov_mb : findingsOverlap (mergeFindingGroup [mergeFindA, mergeFindC])
    mergeFindB = true := by decide

/-- Overlap fraction of the merged representative and `b`. -/
theorem cx_loc_mb : calculateLocationOverlap (mergeFindingGroup [mergeFindA, mergeFindC])
    mergeFindB = 1 := by
  norm_num [calculateLocationOverlap, effEndLine,
    show (mergeFindingGroup [mergeFindA, mergeFindC]).location = locLine5 from rfl,
    show mergeFindB.location = locLine5 from rfl, locLine5]

/-- Score of the merged representative and `b`: both critical now, so
`0.4 + 0.4 + 0.1`. -/
theorem cx_score_mb : calculateCorrelationScore (mergeFindingGroup [mergeFindA, mergeFindC])
    mergeFindB = 9/10 := by
  simp only [calculateCorrelationScore, cx_ov_mb, cx_sim_mb, cx_loc_mb,
    show (mergeFindingGroup [mergeFindA, mergeFindC]).severity = Severity.critical from rfl,
    show mergeFindB.severity = Severity.critical from rfl,
    show metadataRelatedTo (mergeFindingGroup [mergeFindA, mergeFindC]) = none from rfl,
    show metadataRelatedTo mergeFindB = none from rfl]
  simp
  norm_num [min_def]

/-- The merged `{a, c}` representative and `b` are duplicates of each other,
although `a` and `b` were not. -/
theorem cx_dmb : areDuplicates (mergeFindingGroup [mergeFindA, mergeFindC]) mergeFindB =
    true := by
  simp only [areDuplicates, cx_sim_mb, cx_score_mb,
    show (mergeFindingGroup [mergeFindA, mergeFindC]).location = locLine5 from rfl,
    show mergeFindB.location = locLine5 from rfl]
  norm_num

/-- First merge pass on the counterexample input: `a` and `c` merge, `b`
passes through. -/
theorem cx_merge1 : mergeDuplicates mergeCxInput =
    [mergeFindingGroup [mergeFindA, mergeFindC], mergeFindB] := by
  simp [mergeDuplicates, mergeCxInput, mergeDuplicatesGo, List.filter_cons, List.filter_nil,
    cx_dab, cx_dac, show mergeFindA.id = "a" from rfl, show mergeFindB.id = "b" from rfl,
    show mergeFindC.id = "c" from rfl]

/-- Second merge pass: the merged representative now matches `b` and merges
again. -/
theorem cx_merge2 : mergeDuplicates [mergeFindingGroup [mergeFindA, mergeFindC], mergeFindB] =
    [mergeFindingGroup [mergeFindingGroup [mergeFindA, mergeFindC], mergeFindB]] := by
  simp [mergeDuplicates, mergeDuplicatesGo, List.filter_cons, List.filter_nil,
    cx_dmb, cx_mid, show mergeFindB.id = "b" from rfl]

/-- Counterexample to C6 as stated: on the three findings `a`, `b`, `c`
(where `a`/`c` and `b`/`c` are duplicate pairs but `a`/`b` is not, and `c`
has the highest severity), `mergeDuplicates` returns two findings, but a
second application merges further and returns one — the two outputs are not
equal up to ordering. -/
theorem merge_idempotence_counterexample :
    ¬ (mergeDuplicates (mergeDuplicates mergeCxInput)).Perm
      (mergeDuplicates mergeCxInput) := by
  rw [cx_merge1, cx_merge2]
  intro hperm
  have hlen := hperm.length_eq
  simp at hlen

/-- The merge loop passes every finding through unchanged when no two
distinct-id findings of the input are duplicates. -/
theorem mergeDuplicatesGo_pass (fs : List ExtendedFinding)
    (h : ∀ f ∈ fs, ∀ g ∈ fs, f.id ≠ g.id → areDuplicates f g = false) :
    ∀ rest : List ExtendedFinding, (∀ f ∈ rest, f ∈ fs) →
      mergeDuplicatesGo fs rest [] = rest := by
  intro rest
  induction rest with
  | nil => intro _; rfl
  | cons f rest ih =>
    intro hsub
    have hf : f ∈ fs := hsub f (by simp)
    have hdup : fs.filter (fun g => g.id ≠ f.id ∧ g.id ∉ ([] : List String) ∧
        areDuplicates f g = true) = [] := by
      apply List.filter_eq_nil_iff.mpr
      intro g hg
      by_cases hid : g.id = f.id
      · simp [hid]
      · simp [hid, h f hf g hg (fun he => hid he.symm)]
    have hstep : mergeDuplicatesGo fs (f :: rest) [] = f :: mergeDuplicatesGo fs rest [] := by
      simp only [mergeDuplicatesGo]
      rw [if_neg (List.not_mem_nil f.id), hdup]
      rfl
    rw [hstep, ih (fun x hx => hsub x (by simp [hx]))]

/-- C6 (amended): `mergeDuplicates` is deterministic (a pure function of its
input — two runs on the same input yield the same output), and merging
already-merged output is a no-op whenever no two distinct-id findings of the
input are duplicates (then the merge is the identity, hence idempotent); but
idempotence does not hold in general: when the pairwise duplicate relation is
not transitive, a second application can merge further
(`merge_idempotence_counterexample`). -/
theorem mergeDuplicates_deterministic_and_conditional_idempotence
    (fs : List ExtendedFinding)
    (h : ∀ f ∈ fs, ∀ g ∈ fs, f.id ≠ g.id → areDuplicates f g = false) :
    mergeDuplicates fs = fs ∧
    mergeDuplicates (mergeDuplicates fs) = mergeDuplicates fs := by
  have h1 : mergeDuplicates fs = fs := mergeDuplicatesGo_pass fs h fs (fun _ hx => hx)
  rw [h1]
  exact ⟨rfl, h1⟩

/-- Witness for the amended C6 on two non-duplicate findings at distant
lines. -/
theorem mergeDuplicates_conditional_idempotence_witness :
    mergeDuplicates [mergeNoDupA, mergeNoDupB] = [mergeNoDupA, mergeNoDupB] ∧
    mergeDuplicates (mergeDuplicates [mergeNoDupA, mergeNoDupB]) =
      mergeDuplicates [mergeNoDupA, mergeNoDupB] :=
  mergeDuplicates_deterministic_and_conditional_idempotence
    [mergeNoDupA, mergeNoDupB] (by decide)

end Tameshi
